import Mathlib

/-!
Verification development for the pyBIyoyo data pipeline.

The data model and the operations below are translated from
`src/utils/data_processor.py` and `src/utils/data_loader.py`.
A pandas DataFrame is modelled as a `Table`: an ordered header of named,
dtyped columns together with rows, each row carrying its pandas index
label.  Numeric cells (floats) are idealized as exact rationals; a
missing cell (NaN / None) is the distinguished value `Val.na`.
Python code that can raise is embedded with result type
`Except String Table`; the string is the exception message.
-/

namespace PyBI

/-- A cell value: missing (NaN), a number, or a string. -/
inductive Val where
  | na : Val
  | num : ℚ → Val
  | str : String → Val
deriving DecidableEq, Repr

def Val.isNA : Val → Bool
  | .na => true
  | _ => false

/-- Column dtype as used by `select_dtypes`: `numeric` for the
`np.number` family, `object` for everything else (text/categorical). -/
inductive Dtype where
  | numeric : Dtype
  | object : Dtype
deriving DecidableEq, Repr

/-- Whether a cell value may inhabit a column of the given dtype:
a numeric column holds numbers and NaN, an object column anything. -/
def Val.fitsDtype : Val → Dtype → Bool
  | .na, _ => true
  | .num _, _ => true
  | .str _, .object => true
  | .str _, .numeric => false

/-- Lexicographic comparison of strings by their character sequences —
the relation of `String.le`, written as a structural recursion so that
concrete instances reduce. -/
def charListLe : List Char → List Char → Bool
  | [], _ => true
  | _ :: _, [] => false
  | a :: as, b :: bs =>
      if a < b then true else if b < a then false else charListLe as bs

def strLe (a b : String) : Bool := charListLe a.data b.data

/-- Total comparison used where pandas sorts the values of one column
(mode ties, `np.unique` in encoders, `get_dummies` column order):
numbers by numeric order, strings lexicographically.  Mixed kinds never
meet inside one well-formed column; the cross cases are fixed arbitrarily. -/
def Val.leb : Val → Val → Bool
  | .na, _ => true
  | .num _, .na => false
  | .num x, .num y => decide (x ≤ y)
  | .num _, .str _ => true
  | .str _, .na => false
  | .str _, .num _ => false
  | .str a, .str b => strLe a b

/-- A DataFrame: named, dtyped columns and rows labelled with their
pandas index value. -/
structure Table where
  header : List (String × Dtype)
  rows : List (Nat × List Val)
deriving DecidableEq, Repr

def Table.ncols (t : Table) : Nat := t.header.length

def Table.nrows (t : Table) : Nat := t.rows.length

def Table.colNames (t : Table) : List String := t.header.map Prod.fst

/-- Position of a named column (`df.columns.get_loc`); `none` when the
name is absent (`col in df.columns` false). -/
def Table.colIdx (t : Table) (c : String) : Option Nat :=
  t.colNames.findIdx? (fun s => s == c)

def Table.dtypeAt (t : Table) (j : Nat) : Dtype :=
  (t.header.getD j ("", Dtype.object)).2

/-- Cell of a row at a column position (missing positions read as NaN). -/
def cellAt (cells : List Val) (j : Nat) : Val := cells.getD j Val.na

/-- The cells of column `j`, top to bottom. -/
def Table.colCells (t : Table) (j : Nat) : List Val :=
  t.rows.map (fun r => cellAt r.2 j)

/-- The non-missing numeric entries of column `j` (pandas skips NaN in
mean/median/quantile/std). -/
def Table.colNums (t : Table) (j : Nat) : List ℚ :=
  t.rows.filterMap (fun r =>
    match cellAt r.2 j with
    | Val.num x => some x
    | _ => none)

/-- `df.select_dtypes(include=[np.number]).columns`. -/
def Table.numericColNames (t : Table) : List String :=
  (t.header.filter (fun p => p.2 == Dtype.numeric)).map Prod.fst

/-- `df.select_dtypes(include=[object, category]).columns`. -/
def Table.objectColNames (t : Table) : List String :=
  (t.header.filter (fun p => p.2 == Dtype.object)).map Prod.fst

/-- `df.reset_index(drop=True)`: relabel rows densely from 0. -/
def Table.resetIndex (t : Table) : Table :=
  { t with rows := t.rows.mapIdx (fun i r => (i, r.2)) }

/-- Structural well-formedness: every row has one cell per header entry
and each cell fits its column's dtype. -/
def Table.wfb (t : Table) : Bool :=
  t.rows.all (fun r =>
    r.2.length == t.header.length &&
    (r.2.zip t.header).all (fun p => p.1.fitsDtype p.2.2))

def Table.WF (t : Table) : Prop := t.wfb = true

/-! ### Column statistics (pandas semantics, NaN skipped) -/

/-- `Series.mean()` over the non-missing values; `none` is pandas' NaN
result on an empty/all-missing column. -/
def meanQ (xs : List ℚ) : Option ℚ :=
  match xs with
  | [] => none
  | _ => some (xs.sum / (xs.length : ℚ))

/-- Insertion into a list sorted by `le`. -/
def insertLe {α : Type} (le : α → α → Bool) (x : α) : List α → List α
  | [] => [x]
  | y :: ys => if le x y then x :: y :: ys else y :: insertLe le x ys

/-- Insertion sort (kept structurally recursive so terms reduce). -/
def sortBy {α : Type} (le : α → α → Bool) : List α → List α
  | [] => []
  | x :: xs => insertLe le x (sortBy le xs)

def sortQ (xs : List ℚ) : List ℚ := sortBy (fun a b => decide (a ≤ b)) xs

/-- `Series.quantile(a/b)` with pandas' default linear interpolation
over the sorted non-missing values: the position `(a/b)*(n-1)` sits
between the order statistics at `i = floor(a*(n-1)/b)` (written as Nat
division) and `i+1`, with fractional part `(a*(n-1) mod b)/b`.  `none`
is the NaN answer on an empty list. -/
def quantileQ (a b : Nat) (xs : List ℚ) : Option ℚ :=
  let s := sortQ xs
  if s.isEmpty then none
  else
    let i : Nat := a * (s.length - 1) / b
    let frac : ℚ := ((a * (s.length - 1)) % b : Nat) / (b : ℚ)
    let lo := s.getD i 0
    let hi := s.getD (i + 1) lo
    some (lo + frac * (hi - lo))

/-- `Series.mode()[0]`: the smallest among the most frequent
non-missing values; `none` when the column has no non-missing value
(`mode()` empty). -/
def modeVal (cells : List Val) : Option Val :=
  let vs := cells.filter (fun v => !v.isNA)
  vs.dedup.foldl (fun acc v =>
    match acc with
    | none => some v
    | some w =>
        if vs.count v > vs.count w then some v
        else if vs.count v == vs.count w && v.leb w then some v
        else some w) none

/-! ### `DataProcessor.handle_missing_values` -/

/-- Fill value per column for the mean-fill branch: numeric columns get
their mean (`fillna` with a NaN mean is a no-op, hence `none` for an
all-missing column), non-numeric columns get `mode()[0]` when the mode
is non-empty. -/
def meanFillVals (t : Table) : List (Option Val) :=
  t.header.mapIdx (fun j p =>
    match p.2 with
    | Dtype.numeric => (meanQ (t.colNums j)).map Val.num
    | Dtype.object => modeVal (t.colCells j))

/-- Fill value per column for the median-fill branch. -/
def medianFillVals (t : Table) : List (Option Val) :=
  t.header.mapIdx (fun j p =>
    match p.2 with
    | Dtype.numeric => (quantileQ 1 2 (t.colNums j)).map Val.num
    | Dtype.object => modeVal (t.colCells j))

/-- Fill value per column for the mode-fill branch (every column). -/
def modeFillVals (t : Table) : List (Option Val) :=
  t.header.mapIdx (fun j _ => modeVal (t.colCells j))

/-- Apply per-column fill values to one row's missing cells. -/
def fillRow (fills : List (Option Val)) (cells : List Val) : List Val :=
  cells.mapIdx (fun j v => if v.isNA then (fills.getD j none).getD v else v)

/-- The column-wise `fillna` loop of `handle_missing_values`. -/
def Table.fillNA (t : Table) (fills : List (Option Val)) : Table :=
  { t with rows := t.rows.map (fun r => (r.1, fillRow fills r.2)) }

/-- `df.dropna()`: drop every row containing at least one missing cell. -/
def Table.dropNARows (t : Table) : Table :=
  { t with rows := t.rows.filter (fun r => r.2.all (fun v => !v.isNA)) }

/-- `DataProcessor.handle_missing_values` (data_processor.py lines
17-65).  The four recognized Chinese method names are the branch
guards; an unrecognized method leaves the copy untouched; the result is
always `reset_index(drop=True)`.  No branch raises. -/
def handle_missing_values (t : Table) (method : String) : Except String Table :=
  let tp :=
    if method = "删除含缺失值的行" then t.dropNARows
    else if method = "用均值填充" then t.fillNA (meanFillVals t)
    else if method = "用中位数填充" then t.fillNA (medianFillVals t)
    else if method = "用众数填充" then t.fillNA (modeFillVals t)
    else t
  Except.ok tp.resetIndex

/-! ### `DataProcessor.remove_duplicates` -/

/-- The key a row is compared by: its cells restricted to the subset
columns (all cells when `subset is None`). -/
def rowKeyOf (names : Option (List String)) (t : Table) (cells : List Val) : List Val :=
  match names with
  | none => cells
  | some ns => (t.header.zip cells).filterMap (fun p =>
      if ns.contains p.1.1 then some p.2 else none)

/-- Keep-mask for `drop_duplicates`: a row is kept iff its key was not
seen on an earlier row (pandas `keep="first"`; NaN compares equal to
NaN there). -/
def dedupMask (seen : List (List Val)) : List (List Val) → List Bool
  | [] => []
  | k :: ks => (!decide (k ∈ seen)) :: dedupMask (k :: seen) ks

/-- Apply a keep-mask positionally. -/
def applyMask {α : Type} : List Bool → List α → List α
  | b :: bs, x :: xs => if b then x :: applyMask bs xs else applyMask bs xs
  | _, _ => []

/-- Drop duplicate rows by key, keeping first occurrences. -/
def dedupBy (key : List Val → List Val) (t : Table) : Table :=
  { t with rows := applyMask (dedupMask [] (t.rows.map (fun r => key r.2))) t.rows }

/-- `DataProcessor.remove_duplicates` (data_processor.py lines 67-78):
`df.drop_duplicates(subset=subset).reset_index(drop=True)`.  pandas
raises `KeyError` when `subset` names a column absent from the frame. -/
def remove_duplicates (t : Table) (subset : Option (List String)) : Except String Table :=
  match subset with
  | some ns =>
      if ns.all (fun c => (t.colIdx c).isSome) then
        Except.ok ((dedupBy (rowKeyOf (some ns) t) t).resetIndex)
      else Except.error "KeyError: subset column not found"
  | none => Except.ok ((dedupBy (rowKeyOf none t) t).resetIndex)

/-! ### `DataProcessor.remove_outliers` -/

/-- One pass of the IQR loop body for a single column name on the
current frame (data_processor.py lines 98-109): skip an absent column;
compute Q1/Q3 on the current rows and keep the rows whose cell lies in
`[Q1 - 1.5*IQR, Q3 + 1.5*IQR]`.  A NaN cell compares false on both
bounds, and NaN bounds (no numeric entry at all) keep no row; pandas
raises `TypeError` when asked for a quantile of an object column. -/
def iqrStep (acc : Table) (c : String) : Except String Table :=
  match acc.colIdx c with
  | none => Except.ok acc
  | some j =>
    match acc.dtypeAt j with
    | Dtype.object => Except.error "TypeError: cannot compute quantile of object dtype"
    | Dtype.numeric =>
      match quantileQ 1 4 (acc.colNums j), quantileQ 3 4 (acc.colNums j) with
      | some q1, some q3 =>
          let iqr := q3 - q1
          let lb := q1 - 3/2 * iqr
          let ub := q3 + 3/2 * iqr
          Except.ok { acc with rows := acc.rows.filter (fun r =>
            match cellAt r.2 j with
            | Val.num x => decide (lb ≤ x) && decide (x ≤ ub)
            | _ => false) }
      | _, _ => Except.ok { acc with rows := [] }

/-- `Series.std()` (sample standard deviation, ddof = 1) squared: the
sample variance over the non-missing values; `none` is the NaN result
for fewer than two values. -/
def sampleVarQ (xs : List ℚ) : Option ℚ :=
  match meanQ xs with
  | none => none
  | some m =>
      if 2 ≤ xs.length then
        some ((xs.map (fun x => (x - m) ^ 2)).sum / ((xs.length : ℚ) - 1))
      else none

/-- One pass of the z-score loop body (data_processor.py lines
112-115): keep rows with `|x - mean| / std < 3`.  Over the rationals
the test is taken squared: for `std > 0`, `|x-mean|/std < 3` iff
`(x-mean)^2 < 9*var`.  A NaN z-score (NaN cell, NaN std for n < 2, or
zero std giving 0/0) compares false, dropping the row. -/
def zscoreStep (acc : Table) (c : String) : Except String Table :=
  match acc.colIdx c with
  | none => Except.ok acc
  | some j =>
    match acc.dtypeAt j with
    | Dtype.object => Except.error "TypeError: cannot compute mean of object dtype"
    | Dtype.numeric =>
      match meanQ (acc.colNums j), sampleVarQ (acc.colNums j) with
      | some m, some v =>
          if 0 < v then
            Except.ok { acc with rows := acc.rows.filter (fun r =>
              match cellAt r.2 j with
              | Val.num x => decide ((x - m) ^ 2 < 9 * v)
              | _ => false) }
          else Except.ok { acc with rows := [] }
      | _, _ => Except.ok { acc with rows := [] }

/-- The column list actually processed: the argument, or all numeric
columns when `columns is None`. -/
def resolveNumCols (t : Table) (columns : Option (List String)) : List String :=
  columns.getD t.numericColNames

/-- `DataProcessor.remove_outliers` (data_processor.py lines 80-117):
fold the per-column filter over the selected columns (cumulative), then
`reset_index(drop=True)`.  An unrecognized method leaves the copy
untouched (no error is raised). -/
def remove_outliers (t : Table) (columns : Option (List String)) (method : String) :
    Except String Table :=
  let cols := resolveNumCols t columns
  if method = "iqr" then (cols.foldlM iqrStep t).map Table.resetIndex
  else if method = "zscore" then (cols.foldlM zscoreStep t).map Table.resetIndex
  else Except.ok t.resetIndex

/-! ### `DataProcessor.normalize_data` -/

/-- Population mean and variance (ddof = 0), as computed by the
sklearn scalers; `none` on an empty column. -/
def popVarQ (xs : List ℚ) : Option ℚ :=
  match meanQ xs with
  | none => none
  | some m => some ((xs.map (fun x => (x - m) ^ 2)).sum / (xs.length : ℚ))

/-- Exact square root of a non-negative rational, when one exists in ℚ. -/
def qSqrt? (q : ℚ) : Option ℚ :=
  if q < 0 then none
  else
    let sn := Nat.sqrt q.num.toNat
    let sd := Nat.sqrt q.den
    if sn * sn == q.num.toNat && sd * sd == q.den then some ((sn : ℚ) / (sd : ℚ))
    else none

inductive ScaleKind where
  | standard : ScaleKind
  | minmax : ScaleKind
deriving DecidableEq, Repr

/-- The per-value rescaling function fitted on a column's values.
`StandardScaler`: `(x - mean) / sqrt(popvar)`, with a zero scale
replaced by 1 as sklearn does.  The float square root is idealized by
the exact rational root; where the true root is irrational (a value no
rational model can carry) the scale falls back to 1 — no claim below
depends on standard-scaled magnitudes.  `MinMaxScaler` (default
feature range 0-1): `(x - min) / (max - min)`, zero range replaced
by 1. -/
def scaleFn (kind : ScaleKind) (xs : List ℚ) : ℚ → ℚ :=
  match kind with
  | ScaleKind.standard =>
      let m := (meanQ xs).getD 0
      let v := (popVarQ xs).getD 0
      let s := match qSqrt? v with
        | some s => if s == 0 then 1 else s
        | none => 1
      fun x => (x - m) / s
  | ScaleKind.minmax =>
      let mn := xs.foldl min (xs.headD 0)
      let mx := xs.foldl max (xs.headD 0)
      let rng := mx - mn
      let d := if rng == 0 then 1 else rng
      fun x => (x - mn) / d

/-- Replace the cells (and dtype) of column `j`. -/
def Table.setCol (t : Table) (j : Nat) (d : Dtype) (newCells : List Val) : Table :=
  { header := t.header.mapIdx (fun k p => if k = j then (p.1, d) else p),
    rows := (t.rows.zip newCells).map (fun p => (p.1.1, p.1.2.set j p.2)) }

/-- One pass of the normalization loop
(`df_processed[col] = scaler.fit_transform(df_processed[[col]])`,
data_processor.py lines 143-146): skip an absent column; sklearn's
input validation raises `ValueError` on a non-numeric column and on an
empty frame; NaN entries are ignored when fitting and preserved by the
transform (the scalers validate with `force_all_finite="allow-nan"`);
every numeric cell of the column is rescaled by the fitted
transform. -/
def normStep (kind : ScaleKind) (acc : Table) (c : String) : Except String Table :=
  match acc.colIdx c with
  | none => Except.ok acc
  | some j =>
    match acc.dtypeAt j with
    | Dtype.object => Except.error "ValueError: could not convert string to float"
    | Dtype.numeric =>
      if acc.rows.isEmpty then
        Except.error "ValueError: found array with 0 samples"
      else
        let f := scaleFn kind (acc.colNums j)
        Except.ok (acc.setCol j Dtype.numeric ((acc.colCells j).map (fun v =>
          match v with
          | Val.num x => Val.num (f x)
          | w => w)))

/-- `DataProcessor.normalize_data` (data_processor.py lines 119-148):
the method is dispatched first and an unrecognized name raises
`ValueError: method must be 'standard' or 'minmax'` (message modelled
without the quote marks); then the per-column rescaling loop runs over
the selected columns.  No `reset_index` here.  The fitted-scaler
registry `self.scalers` is not modelled: no claim concerns it. -/
def normalize_data (t : Table) (columns : Option (List String)) (method : String) :
    Except String Table :=
  let cols := resolveNumCols t columns
  if method = "standard" then cols.foldlM (normStep ScaleKind.standard) t
  else if method = "minmax" then cols.foldlM (normStep ScaleKind.minmax) t
  else Except.error "ValueError: method must be standard or minmax"

/-! ### `DataProcessor.encode_categorical` -/

/-- Python `str()` of a cell as produced by `.astype(str)`: NaN becomes
the ordinary string "nan".  (Python formats floats differently from
`Rat.repr` — e.g. "1.0" — but only distinctness and order of the
strings matter to any claim.) -/
def Val.pyStr : Val → String
  | .na => "nan"
  | .str s => s
  | .num x => toString x

/-- `LabelEncoder().fit_transform(col.astype(str))`: classes are the
distinct strings in sorted order; each cell is replaced by the integer
position of its string among the classes. -/
def labelEncodeCells (cells : List Val) : List Val :=
  let strs := cells.map Val.pyStr
  let classes := sortBy strLe strs.dedup
  strs.map (fun s => Val.num ((classes.indexOf s : Nat) : ℚ))

/-- One pass of the label-encoding loop (data_processor.py lines
168-172): skip an absent column, else overwrite the column with the
integer codes (the column dtype becomes numeric).  The encoder
registry `self.encoders` is not modelled: no claim concerns it. -/
def labelStep (t : Table) (c : String) : Table :=
  match t.colIdx c with
  | none => t
  | some j => t.setCol j Dtype.numeric (labelEncodeCells (t.colCells j))

/-- The distinct non-missing values of a named column in sorted order:
the categories `pd.get_dummies` creates indicator columns for
(`dummy_na=False` by default, so NaN gets no column). -/
def dummyVals (t : Table) (c : String) : List Val :=
  match t.colIdx c with
  | none => []
  | some j => sortBy Val.leb ((t.colCells j).filter (fun v => !v.isNA)).dedup

/-- `pd.get_dummies(df, columns=cols, prefix=cols)`: the encoded
columns are removed in place, the remaining columns keep their order,
and for each encoded column one indicator column per distinct
non-missing value is appended at the end, named
`col + "_" + str(value)`; a NaN cell gets 0 in every indicator. -/
def getDummies (t : Table) (cols : List String) : Table :=
  { header := t.header.filter (fun p => !(cols.contains p.1))
      ++ cols.flatMap (fun c =>
           (dummyVals t c).map (fun v => (c ++ "_" ++ v.pyStr, Dtype.numeric))),
    rows := t.rows.map (fun r => (r.1,
      (r.2.zip t.header).filterMap (fun p =>
        if cols.contains p.2.1 then none else some p.1)
      ++ cols.flatMap (fun c =>
           match t.colIdx c with
           | none => []
           | some j => (dummyVals t c).map (fun v =>
               if cellAt r.2 j == v then Val.num 1 else Val.num 0)))) }

/-- `DataProcessor.encode_categorical` (data_processor.py lines
150-177): label or one-hot encoding over the selected columns
(defaulting to all object/category columns); an unrecognized method
returns the copied frame unchanged; `pd.get_dummies` raises `KeyError`
when a listed column is absent. -/
def encode_categorical (t : Table) (columns : Option (List String)) (method : String) :
    Except String Table :=
  let cols := columns.getD t.objectColNames
  if method = "label" then Except.ok (cols.foldl labelStep t)
  else if method = "onehot" then
    if cols.all (fun c => (t.colIdx c).isSome) then Except.ok (getDummies t cols)
    else Except.error "KeyError: column not found"
  else Except.ok t

/-! ### `DataProcessor.create_bins` -/

/-- The `bins` argument of `pd.cut`: a bin count or explicit
boundaries. -/
inductive BinSpec where
  | count : Nat → BinSpec
  | edges : List ℚ → BinSpec
deriving DecidableEq, Repr

/-- `np.linspace lo hi (n+1)` as used by `pd.cut` for integer bins. -/
def linspace (lo hi : ℚ) (n : Nat) : List ℚ :=
  (List.range (n + 1)).map (fun i => lo + (hi - lo) * (i : ℚ) / (n : ℚ))

/-- Whether a cell holds a string. -/
def Val.isStr : Val → Bool
  | .str _ => true
  | _ => false

/-- `Index.is_monotonic_increasing` on the bin edges (non-strict; a
NaN edge makes it false, which is why NaN edges are rejected by
`pd.cut`'s monotonicity check). -/
def monoNonDecrB : List ℚ → Bool
  | [] => true
  | [_] => true
  | a :: b :: rest => decide (a ≤ b) && monoNonDecrB (b :: rest)

/-- Adjacent duplicate edges (in a non-decreasing list these are all
the duplicates), rejected by `pd.cut`'s default `duplicates="raise"`. -/
def hasDupAdj : List ℚ → Bool
  | a :: b :: rest => decide (a = b) || hasDupAdj (b :: rest)
  | _ => false

/-- `pd.cut`'s `_nbins_to_bins`: an integer bin count must be
positive and the input non-empty; the range of the values is split
evenly, the first edge then lowered by 0.1% of the range (a degenerate
single-point range is widened by 0.1% of its magnitude on both sides,
or by 0.001 at zero).  An all-NaN column has NaN min/max, producing
all-NaN edges which the monotonicity check downstream rejects — that
rejection is raised here, where the rational model cannot carry the
NaN edges themselves. -/
def nbinsToEdges (xs : List ℚ) (nrows : Nat) (n : Nat) : Except String (List ℚ) :=
  if n = 0 then Except.error "ValueError: bins should be a positive integer"
  else if nrows = 0 then Except.error "ValueError: cannot cut empty array"
  else
    match xs with
    | [] => Except.error "ValueError: bins must increase monotonically"
    | x :: _ =>
      let mn := xs.foldl min x
      let mx := xs.foldl max x
      if mn == mx then
        let adj := if mn == 0 then (1 : ℚ)/1000 else |mn| / 1000
        Except.ok (linspace (mn - adj) (mx + adj) n)
      else
        match linspace mn mx n with
        | [] => Except.ok []
        | e0 :: rest => Except.ok ((e0 - (mx - mn) / 1000) :: rest)

/-- The validated bin edges `pd.cut` works with: explicit edges are
used as given, an integer count goes through `_nbins_to_bins`; either
way `_bins_to_cuts` then rejects edges that are not monotonically
non-decreasing and, by default, duplicate edges. -/
def pdCut? (xs : List ℚ) (nrows : Nat) (bins : BinSpec) : Except String (List ℚ) :=
  match (match bins with
         | BinSpec.edges es => Except.ok es
         | BinSpec.count n => nbinsToEdges xs nrows n) with
  | Except.error e => Except.error e
  | Except.ok es =>
      if monoNonDecrB es then
        if hasDupAdj es then Except.error "ValueError: bin edges must be unique"
        else Except.ok es
      else Except.error "ValueError: bins must increase monotonically"

/-- The category label of bin `i`: the caller's label when given, else
a rendering of the half-open interval. -/
def binLabel (labels : Option (List String)) (es : List ℚ) (i : Nat) : Val :=
  match labels with
  | some ls => Val.str (ls.getD i "")
  | none => Val.str ("(" ++ toString (es.getD i 0) ++ ", " ++ toString (es.getD (i + 1) 0) ++ "]")

/-- `pd.cut` on one cell with `right=True, include_lowest=True`: bin
`i` is `(e_i, e_i+1]`, the lowest bin additionally containing its left
edge; a value outside every bin, and a NaN cell, map to NaN. -/
def cutVal (es : List ℚ) (labels : Option (List String)) (v : Val) : Val :=
  match v with
  | Val.num x =>
      (match (List.range (es.length - 1)).find? (fun i =>
          let lo := es.getD i 0
          let hi := es.getD (i + 1) 0
          (if i == 0 then decide (lo ≤ x) else decide (lo < x)) && decide (x ≤ hi)) with
       | some i => binLabel labels es i
       | none => Val.na)
  | _ => Val.na

/-- Write a named column: pandas column assignment replaces an
existing column of that name in place and otherwise appends a new
column at the end. -/
def Table.setOrAppend (t : Table) (name : String) (d : Dtype) (cells : List Val) : Table :=
  match t.colIdx name with
  | some j => t.setCol j d cells
  | none =>
      { header := t.header ++ [(name, d)],
        rows := (t.rows.zip cells).map (fun p => (p.1.1, p.1.2 ++ [p.2])) }

/-- `DataProcessor.create_bins` (data_processor.py lines 179-202):
when the named column is present, assign
`df_processed[column + "_binned"] = pd.cut(df_processed[column], ...)`;
when it is absent the copied frame is returned unchanged.  `pd.cut`
raises `TypeError` on a column containing strings (its min/max and
`searchsorted` comparisons mix str with numbers) and `ValueError` on
degenerate bins (non-positive count, empty input or all-NaN input with
an integer count, non-monotone or duplicate edges).  (The `ValueError`
pandas raises when a labels list has the wrong length is not modelled;
no claim involves labels.) -/
def create_bins (t : Table) (column : String) (bins : BinSpec)
    (labels : Option (List String)) : Except String Table :=
  match t.colIdx column with
  | none => Except.ok t
  | some j =>
      if (t.colCells j).any Val.isStr then
        Except.error "TypeError: mixed str and numeric values are unorderable"
      else
        match pdCut? (t.colNums j) t.nrows bins with
        | Except.error e => Except.error e
        | Except.ok es =>
            let binned := (t.colCells j).map (cutVal es labels)
            Except.ok (t.setOrAppend (column ++ "_binned") Dtype.object binned)

/-! ### `DataLoader.load_csv` -/

/-- Split one decoded line on a separator character (structurally
recursive so that concrete instances reduce). -/
def splitFieldsAux (sep : Char) : List Char → List Char → List (List Char)
  | [], acc => [acc.reverse]
  | c :: cs, acc =>
      if c == sep then acc.reverse :: splitFieldsAux sep cs []
      else splitFieldsAux sep cs (c :: acc)

def splitFields (sep : Char) (line : String) : List String :=
  (splitFieldsAux sep line.toList []).map (fun cs => String.mk cs)

/-- A parsed delimited-text frame: header names and rows of optional
fields (an empty field reads as NaN, as `pd.read_csv` does). -/
structure CSVFrame where
  header : List String
  rows : List (List (Option String))
deriving DecidableEq, Repr

/-- `pd.read_csv(source, sep=sep)` modelled over the decoded lines of
a re-readable source: the first line is the header, the rest are data
rows split on the separator; empty fields read as NaN; a short row is
right-padded with NaN; pandas raises on an empty source
(`EmptyDataError`) and on a row with more fields than the header
(`ParserError`). -/
def readCSV (sep : Char) (lines : List String) : Except String CSVFrame :=
  match lines with
  | [] => Except.error "EmptyDataError: no columns to parse from file"
  | h :: body =>
      let hdr := splitFields sep h
      let rows := body.map (fun l =>
        (splitFields sep l).map (fun f => if f = "" then none else some f))
      if rows.all (fun r => r.length ≤ hdr.length) then
        Except.ok { header := hdr,
                    rows := rows.map (fun r => r ++ List.replicate (hdr.length - r.length) none) }
      else Except.error "ParserError: row with too many fields"

/-- The delimiter candidates of `load_csv`, in source order. -/
def separators : List Char := [',', ';', '\t', '|']

/-- The probing loop of `load_csv` (data_loader.py lines 54-62): try
each candidate in order, swallow parse errors, and stop at the first
parse with more than one column; `none` when the loop finishes without
a break. -/
def probeLoop (lines : List String) : List Char → Option CSVFrame
  | [] => none
  | sep :: rest =>
      match readCSV sep lines with
      | Except.error _ => probeLoop lines rest
      | Except.ok df =>
          if 1 < df.header.length then some df else probeLoop lines rest

/-- The post-load cleanup (data_loader.py lines 67-71): drop rows that
are entirely empty, then columns that are entirely empty, then
`reset_index(drop=True)` (a no-op in this model, which carries no
index on raw frames). -/
def dropBlank (df : CSVFrame) : CSVFrame :=
  let rows1 := df.rows.filter (fun r => !r.all (fun c => c.isNone))
  let keep := (List.range df.header.length).filter (fun j =>
    !(rows1.all (fun r => (r.getD j none).isNone)))
  { header := keep.map (fun j => df.header.getD j ""),
    rows := rows1.map (fun r => keep.map (fun j => r.getD j none)) }

/-- `DataLoader.load_csv` (data_loader.py lines 39-76) on a
re-readable source (the file-path case; a consumed in-memory stream
is an artifact outside the value model): the `for`/`else` loop takes
the first candidate parse with more than one column; when no candidate
breaks the loop, the frame is re-read with the default comma separator
regardless of its column count, and an error of that final parse is
wrapped in the loader's message. -/
def load_csv (lines : List String) : Except String CSVFrame :=
  match probeLoop lines separators with
  | some df => Except.ok (dropBlank df)
  | none =>
      match readCSV ',' lines with
      | Except.ok df => Except.ok (dropBlank df)
      | Except.error e => Except.error ("CSV文件加载失败: " ++ e)

/-! ### Object-level model of the Processor contract

Python frames are heap objects: a variable denotes a reference.  The
heap is the list of allocated frames, a reference an index into it.
`df.copy()` allocates a fresh object; the in-place updates inside one
operation (`fillna(..., inplace=True)`, `df_processed[col] = ...`)
mutate the allocated copy and are collapsed into one store of the
frame the operation's body leaves behind; plain rebindings
(`df_processed = df_processed.dropna()` etc.) create fresh values and
touch no existing object.  `remove_duplicates` copies nothing and
mutates nothing: `drop_duplicates` returns a new frame. -/

abbrev Heap := List Table

def hRead (h : Heap) (r : Nat) : Option Table := h[r]?

/-- `df.copy()`: allocate a fresh object holding the same frame. -/
def halloc (h : Heap) (t : Table) : Heap × Nat := (h ++ [t], h.length)

/-- An in-place update of the object `r` points to. -/
def hwrite (h : Heap) (r : Nat) (t : Table) : Heap := h.set r t

/-- One user-triggered Processor operation with its parameters. -/
inductive ProcOp where
  | handleMissing : String → ProcOp
  | removeDups : Option (List String) → ProcOp
  | removeOutliers : Option (List String) → String → ProcOp
  | normalize : Option (List String) → String → ProcOp
  | encode : Option (List String) → String → ProcOp
  | makeBins : String → BinSpec → Option (List String) → ProcOp

/-- Run one Processor operation against the heap, the input frame
given by reference.  Every operation except `remove_duplicates` first
copies its input (`df.copy()`); all subsequent in-place effects target
the copy. -/
def runOp (op : ProcOp) (h : Heap) (r : Nat) : Heap × Except String Table :=
  match hRead h r with
  | none => (h, Except.error "NameError: undefined reference")
  | some df =>
    match op with
    | ProcOp.handleMissing m =>
        let (h1, p) := halloc h df
        match handle_missing_values df m with
        | Except.ok res => (hwrite h1 p res, Except.ok res)
        | Except.error e => (h1, Except.error e)
    | ProcOp.removeDups subset => (h, remove_duplicates df subset)
    | ProcOp.removeOutliers cols m =>
        let (h1, _) := halloc h df
        (h1, remove_outliers df cols m)
    | ProcOp.normalize cols m =>
        let (h1, p) := halloc h df
        match normalize_data df cols m with
        | Except.ok res => (hwrite h1 p res, Except.ok res)
        | Except.error e => (h1, Except.error e)
    | ProcOp.encode cols m =>
        let (h1, p) := halloc h df
        match encode_categorical df cols m with
        | Except.ok res => (hwrite h1 p res, Except.ok res)
        | Except.error e => (h1, Except.error e)
    | ProcOp.makeBins c bins labels =>
        let (h1, p) := halloc h df
        match create_bins df c bins labels with
        | Except.ok res => (hwrite h1 p res, Except.ok res)
        | Except.error e => (h1, Except.error e)

/-! ## Infrastructure lemmas -/

theorem Table.header_resetIndex (t : Table) : t.resetIndex.header = t.header := rfl

theorem Table.rows_resetIndex (t : Table) :
    t.resetIndex.rows = (t.rows.map Prod.snd).enum := by
  simp only [Table.resetIndex, List.mapIdx_eq_enum_map, List.enum_map]
  rfl

theorem Table.map_snd_resetIndex (t : Table) :
    t.resetIndex.rows.map Prod.snd = t.rows.map Prod.snd := by
  rw [Table.rows_resetIndex, List.enum_map_snd]

theorem Table.idx_resetIndex (t : Table) :
    t.resetIndex.rows.map Prod.fst = List.range t.nrows := by
  rw [Table.rows_resetIndex, List.enum_map_fst]
  simp [Table.nrows]

theorem Table.colCells_resetIndex (t : Table) (j : Nat) :
    t.resetIndex.colCells j = t.colCells j := by
  show (t.resetIndex.rows.map fun r => cellAt r.2 j) = t.rows.map fun r => cellAt r.2 j
  rw [show (fun r : Nat × List Val => cellAt r.2 j) =
        (fun cs => cellAt cs j) ∘ Prod.snd from rfl,
      ← List.map_map, Table.map_snd_resetIndex, List.map_map]

theorem hRead_lt {h : Heap} {r : Nat} {t : Table} (hr : hRead h r = some t) :
    r < h.length := by
  rcases List.getElem?_eq_some.mp hr with ⟨hlt, _⟩
  exact hlt

theorem hRead_halloc {h : Heap} {r : Nat} (u : Table) (hx : r < h.length) :
    hRead (h ++ [u]) r = hRead h r := by
  simp [hRead, List.getElem?_append, hx]

theorem hRead_hwrite_ne {h : Heap} {p r : Nat} (u : Table) (hx : p ≠ r) :
    hRead (hwrite h p u) r = hRead h r := by
  simp [hRead, hwrite, List.getElem?_set_ne hx]

/-! ## Claim C1 — error behaviour of the method parameters

The claim says all four method-taking operations fail with a
ValueError on an invalid method name.  In the source only
`normalize_data` raises; the other three fall through their `if`/`elif`
chains and return the processed copy.  C1 is therefore corrected. -/

/-- A single-column, single-row frame used as the concrete input of
the counterexamples and witnesses below. -/
def cexT : Table :=
  { header := [("a", Dtype.numeric)], rows := [(0, [Val.num 1])] }

/-- C1, counterexample: calling `handle_missing_values` with the
invalid method name "无效方法" does not fail — it returns a table (the
reindexed copy), contradicting the claim that every method-taking
operation raises a ValueError on an invalid method name. -/
theorem C1_counterexample :
    handle_missing_values cexT "无效方法" = Except.ok cexT := by
  simp [handle_missing_values, cexT, Table.resetIndex]

/-- The method names `handle_missing_values` recognizes. -/
def hmvMethods : List String :=
  ["删除含缺失值的行", "用均值填充", "用中位数填充", "用众数填充"]

/-- C1, amended: of the four method-taking Processor operations only
`normalize_data` fails on an invalid method name, with a
ValueError-class error naming the `method` parameter;
`handle_missing_values`, `remove_outliers` and `encode_categorical`
silently return a table (the copied frame, reindexed where the source
reindexes) instead. -/
theorem C1_only_normalize_rejects_bad_method :
    (∀ (t : Table) (cols : Option (List String)) (m : String),
        m ≠ "standard" → m ≠ "minmax" →
        normalize_data t cols m =
          Except.error "ValueError: method must be standard or minmax") ∧
    (∀ (t : Table) (m : String), m ∉ hmvMethods →
        handle_missing_values t m = Except.ok t.resetIndex) ∧
    (∀ (t : Table) (cols : Option (List String)) (m : String),
        m ≠ "iqr" → m ≠ "zscore" →
        remove_outliers t cols m = Except.ok t.resetIndex) ∧
    (∀ (t : Table) (cols : Option (List String)) (m : String),
        m ≠ "label" → m ≠ "onehot" →
        encode_categorical t cols m = Except.ok t) := by
  refine ⟨?_, ?_, ?_, ?_⟩
  · intro t cols m h1 h2
    simp [normalize_data, h1, h2]
  · intro t m hm
    simp [hmvMethods, List.mem_cons, not_or] at hm
    obtain ⟨h1, h2, h3, h4⟩ := hm
    simp [handle_missing_values, h1, h2, h3, h4]
  · intro t cols m h1 h2
    simp [remove_outliers, h1, h2]
  · intro t cols m h1 h2
    simp [encode_categorical, h1, h2]

/-- Witness for C1: the amended theorem applied at the concrete frame
`cexT` with the invalid method name "bogus". -/
theorem C1_only_normalize_rejects_bad_method_witness :
    normalize_data cexT none "bogus" =
      Except.error "ValueError: method must be standard or minmax" ∧
    handle_missing_values cexT "bogus" = Except.ok cexT.resetIndex ∧
    remove_outliers cexT none "bogus" = Except.ok cexT.resetIndex ∧
    encode_categorical cexT none "bogus" = Except.ok cexT :=
  ⟨C1_only_normalize_rejects_bad_method.1 cexT none "bogus"
      (by decide) (by decide),
   C1_only_normalize_rejects_bad_method.2.1 cexT "bogus" (by decide),
   C1_only_normalize_rejects_bad_method.2.2.1 cexT none "bogus"
      (by decide) (by decide),
   C1_only_normalize_rejects_bad_method.2.2.2 cexT none "bogus"
      (by decide) (by decide)⟩

/-! ## Claim C2 — no operation mutates its input frame

Every Processor operation either works on `df.copy()` (a freshly
allocated object, the target of all its in-place stores) or, for
`remove_duplicates`, only calls non-mutating pandas methods.  At the
object level: running any operation leaves the frame the input
reference points to unchanged. -/

/-- C2: for every Processor operation, input heap and input reference,
running the operation leaves the caller's frame untouched — the
reference still reads the very table it held before, including when
the operation fails. -/
theorem C2_no_op_mutates_input (op : ProcOp) (h : Heap) (r : Nat) (t : Table)
    (hr : hRead h r = some t) : hRead (runOp op h r).1 r = some t := by
  have hlt : r < h.length := hRead_lt hr
  have hne : h.length ≠ r := Nat.ne_of_gt hlt
  cases op with
  | handleMissing m =>
      simp only [runOp, hr]
      cases hmv : handle_missing_values t m with
      | ok res =>
          simpa [halloc, hRead_hwrite_ne res hne, hRead_halloc t hlt] using hr
      | error e =>
          simpa [halloc, hRead_halloc t hlt] using hr
  | removeDups subset => simp [runOp, hr]
  | removeOutliers cols m =>
      simp [runOp, hr, halloc, hRead_halloc t hlt]
  | normalize cols m =>
      simp only [runOp, hr]
      cases hn : normalize_data t cols m with
      | ok res =>
          simpa [halloc, hRead_hwrite_ne res hne, hRead_halloc t hlt] using hr
      | error e =>
          simpa [halloc, hRead_halloc t hlt] using hr
  | encode cols m =>
      simp only [runOp, hr]
      cases he : encode_categorical t cols m with
      | ok res =>
          simpa [halloc, hRead_hwrite_ne res hne, hRead_halloc t hlt] using hr
      | error e =>
          simpa [halloc, hRead_halloc t hlt] using hr
  | makeBins c bins labels =>
      simp only [runOp, hr]
      cases hb : create_bins t c bins labels with
      | ok res =>
          simpa [halloc, hRead_hwrite_ne res hne, hRead_halloc t hlt] using hr
      | error e =>
          simpa [halloc, hRead_halloc t hlt] using hr

/-- Witness for C2: a one-frame heap, running `remove_duplicates`
(no subset) on reference 0 leaves reference 0 reading `cexT`. -/
theorem C2_no_op_mutates_input_witness :
    hRead [cexT] 0 = some cexT ∧
    hRead (runOp (ProcOp.removeDups none) [cexT] 0).1 0 = some cexT :=
  ⟨rfl, C2_no_op_mutates_input (ProcOp.removeDups none) [cexT] 0 cexT rfl⟩

/-! ## Claim C8 — duplicate removal is idempotent -/

theorem Table.eq_of_parts {a b : Table} (h1 : a.header = b.header)
    (h2 : a.rows = b.rows) : a = b := by
  cases a; cases b; cases h1; cases h2; rfl

theorem Table.resetIndex_idem (t : Table) : t.resetIndex.resetIndex = t.resetIndex := by
  refine Table.eq_of_parts rfl ?_
  rw [Table.rows_resetIndex t.resetIndex, Table.map_snd_resetIndex,
    ← Table.rows_resetIndex]

theorem applyMask_map {α β : Type} (f : α → β) (bs : List Bool) (l : List α) :
    (applyMask bs l).map f = applyMask bs (l.map f) := by
  induction bs generalizing l with
  | nil => cases l <;> simp [applyMask]
  | cons b bs ih =>
      cases l with
      | nil => simp [applyMask]
      | cons x xs => cases b <;> simp [applyMask, ih]

/-- The rows kept by one dedup pass carry pairwise-distinct keys, none
of them previously seen. -/
theorem dedupMask_sel_nodup (ks : List (List Val)) : ∀ seen : List (List Val),
    (applyMask (dedupMask seen ks) ks).Nodup ∧
    ∀ x ∈ applyMask (dedupMask seen ks) ks, x ∉ seen := by
  induction ks with
  | nil => intro seen; simp [dedupMask, applyMask]
  | cons k ks ih =>
      intro seen
      have ihk := ih (k :: seen)
      by_cases hk : k ∈ seen
      · rw [show dedupMask seen (k :: ks) =
            (!decide (k ∈ seen)) :: dedupMask (k :: seen) ks from rfl,
          decide_eq_true hk]
        simp only [Bool.not_true, applyMask]
        exact ⟨ihk.1, fun x hx hs => (ihk.2 x hx) (List.mem_cons_of_mem _ hs)⟩
      · rw [show dedupMask seen (k :: ks) =
            (!decide (k ∈ seen)) :: dedupMask (k :: seen) ks from rfl,
          decide_eq_false hk]
        simp only [Bool.not_false, applyMask]
        refine ⟨List.nodup_cons.mpr ⟨?_, ihk.1⟩, ?_⟩
        · intro hkin
          exact (ihk.2 k hkin) (List.mem_cons_self _ _)
        · intro x hx
          rcases List.mem_cons.mp hx with h | h
          · exact h ▸ hk
          · exact fun hs => (ihk.2 x h) (List.mem_cons_of_mem _ hs)

/-- On a key list with pairwise-distinct keys disjoint from `seen`,
the dedup pass keeps everything. -/
theorem dedupMask_nodup_all_true (ks : List (List Val)) : ∀ seen : List (List Val),
    ks.Nodup → (∀ x ∈ ks, x ∉ seen) →
    dedupMask seen ks = List.replicate ks.length true := by
  induction ks with
  | nil => intro seen _ _; simp [dedupMask]
  | cons k ks ih =>
      intro seen hnd hdis
      have hk : k ∉ seen := hdis k (List.mem_cons_self _ _)
      have hnd' := List.nodup_cons.mp hnd
      rw [show dedupMask seen (k :: ks) =
            (!decide (k ∈ seen)) :: dedupMask (k :: seen) ks from rfl,
        decide_eq_false hk]
      simp only [Bool.not_false, List.length_cons, List.replicate_succ,
        List.cons.injEq, true_and]
      refine ih (k :: seen) hnd'.2 ?_
      intro x hx
      intro hmem
      rcases List.mem_cons.mp hmem with h | h
      · exact hnd'.1 (h ▸ hx)
      · exact hdis x (List.mem_cons_of_mem _ hx) h

theorem applyMask_replicate_true {α : Type} (l : List α) :
    applyMask (List.replicate l.length true) l = l := by
  induction l with
  | nil => simp [applyMask]
  | cons x xs ih => simp [applyMask, List.replicate_succ, ih]

/-- A deduplicated, reindexed table is a fixed point of the dedup pass
with the same key function. -/
theorem dedupBy_resetIndex_fixed (k : List Val → List Val) (t : Table) :
    dedupBy k ((dedupBy k t).resetIndex) = (dedupBy k t).resetIndex := by
  set ks := t.rows.map (fun r => k r.2) with hks
  set u := (dedupBy k t).resetIndex with hu
  have hkeys : u.rows.map (fun r => k r.2) = applyMask (dedupMask [] ks) ks := by
    calc u.rows.map (fun r => k r.2)
        = (u.rows.map Prod.snd).map k := by rw [List.map_map]; rfl
      _ = ((dedupBy k t).rows.map Prod.snd).map k := by
            rw [hu, Table.map_snd_resetIndex]
      _ = ((applyMask (dedupMask [] ks) t.rows).map Prod.snd).map k := rfl
      _ = applyMask (dedupMask [] ks) ((t.rows.map Prod.snd).map k) := by
            rw [applyMask_map, applyMask_map]
      _ = applyMask (dedupMask [] ks) ks := by rw [List.map_map, hks]; rfl
  have hnd : (u.rows.map (fun r => k r.2)).Nodup := by
    rw [hkeys]; exact (dedupMask_sel_nodup ks []).1
  have hmask : dedupMask [] (u.rows.map (fun r => k r.2)) =
      List.replicate (u.rows.map (fun r => k r.2)).length true :=
    dedupMask_nodup_all_true _ [] hnd (by simp)
  refine Table.eq_of_parts rfl ?_
  show applyMask (dedupMask [] (u.rows.map fun r => k r.2)) u.rows = u.rows
  rw [hmask, List.length_map, applyMask_replicate_true]

/-- C8: duplicate removal is idempotent — whenever
`remove_duplicates` succeeds on a table (any optional column subset),
running it again on the result returns that result unchanged (the
second pass finds only pairwise-distinct keys, and reindexing a
densely indexed table changes nothing). -/
theorem C8_remove_duplicates_idempotent (t : Table) (subset : Option (List String))
    (t₁ : Table) (h : remove_duplicates t subset = Except.ok t₁) :
    remove_duplicates t₁ subset = Except.ok t₁ := by
  cases subset with
  | none =>
      simp only [remove_duplicates, Except.ok.injEq] at h
      subst h
      simp only [remove_duplicates, Except.ok.injEq]
      have hkey : rowKeyOf none ((dedupBy (rowKeyOf none t) t).resetIndex) =
          rowKeyOf none t := rfl
      rw [hkey, dedupBy_resetIndex_fixed, Table.resetIndex_idem]
  | some ns =>
      by_cases hall : ns.all (fun c => (t.colIdx c).isSome)
      · simp only [remove_duplicates, hall, if_true, Except.ok.injEq] at h
        subst h
        set u := (dedupBy (rowKeyOf (some ns) t) t).resetIndex with hu
        have hh : u.header = t.header := rfl
        have hall' : ns.all (fun c => (u.colIdx c).isSome) = true := by
          simpa only [Table.colIdx, Table.colNames, hh] using hall
        have hkey : rowKeyOf (some ns) u = rowKeyOf (some ns) t := by
          funext cells
          simp only [rowKeyOf, hh]
        simp only [remove_duplicates, hall', if_true, Except.ok.injEq]
        rw [hkey, hu, dedupBy_resetIndex_fixed, Table.resetIndex_idem]
      · simp only [remove_duplicates, hall, if_false] at h
        exact absurd h (by simp)

/-- Witness for C8: the idempotence theorem applied to the concrete
frame with rows [A,1], [A,1], [B,2] — one pass drops the duplicate
[A,1]; the second pass is the identity. -/
def dupT : Table :=
  { header := [("a", Dtype.object), ("b", Dtype.numeric)],
    rows := [(0, [Val.str "A", Val.num 1]), (1, [Val.str "A", Val.num 1]),
             (2, [Val.str "B", Val.num 2])] }

def dupT1 : Table :=
  { header := [("a", Dtype.object), ("b", Dtype.numeric)],
    rows := [(0, [Val.str "A", Val.num 1]), (1, [Val.str "B", Val.num 2])] }

theorem C8_remove_duplicates_idempotent_witness :
    remove_duplicates dupT none = Except.ok dupT1 ∧
    remove_duplicates dupT1 none = Except.ok dupT1 :=
  ⟨by simp [remove_duplicates, dupT, dupT1, dedupBy, rowKeyOf, dedupMask,
      applyMask, Table.resetIndex],
   C8_remove_duplicates_idempotent dupT none dupT1
     (by simp [remove_duplicates, dupT, dupT1, dedupBy, rowKeyOf, dedupMask,
       applyMask, Table.resetIndex])⟩

/-! ## Claim C9 — outlier removal drops rows with missing values in
the filtered columns -/

theorem Table.colIdx_congr {u t : Table} (h : u.header = t.header) :
    ∀ c, u.colIdx c = t.colIdx c := by
  intro c; simp [Table.colIdx, Table.colNames, h]

theorem Table.mem_resetIndex_snd {t : Table} {r : Nat × List Val}
    (h : r ∈ t.resetIndex.rows) : ∃ r₀ ∈ t.rows, r₀.2 = r.2 := by
  rw [Table.rows_resetIndex] at h
  have h2 : r.2 ∈ t.rows.map Prod.snd := by
    have := List.mem_enum_iff_getElem?.mp h
    exact List.getElem?_mem this
  rcases List.mem_map.mp h2 with ⟨r₀, hr₀, he⟩
  exact ⟨r₀, hr₀, he⟩

/-- The non-NaN guarantee one IQR pass gives for its own column: every
surviving row holds an actual number there (a NaN cell fails both
bound comparisons and is dropped). -/
theorem iqrStep_props {acc u : Table} {c : String} (h : iqrStep acc c = Except.ok u) :
    u.header = acc.header ∧ (∀ r ∈ u.rows, r ∈ acc.rows) ∧
    (∀ j, acc.colIdx c = some j → ∀ r ∈ u.rows, ∃ x, cellAt r.2 j = Val.num x) := by
  cases hcol : acc.colIdx c with
  | none =>
      simp only [iqrStep, hcol] at h
      cases h
      exact ⟨rfl, fun r hr => hr, fun j hj => nomatch hj⟩
  | some j =>
      simp only [iqrStep, hcol] at h
      cases hd : acc.dtypeAt j with
      | object => simp only [hd] at h; exact nomatch h
      | numeric =>
        simp only [hd] at h
        cases hq1 : quantileQ 1 4 (acc.colNums j) with
        | none =>
            simp only [hq1] at h
            cases h
            exact ⟨rfl, by simp, by simp⟩
        | some q1 =>
            simp only [hq1] at h
            cases hq3 : quantileQ 3 4 (acc.colNums j) with
            | none =>
                simp only [hq3] at h; cases h
                exact ⟨rfl, by simp, by simp⟩
            | some q3 =>
                simp only [hq3] at h
                cases h
                refine ⟨rfl, fun r hr => (List.mem_filter.mp hr).1, ?_⟩
                intro j' hj' r hr
                obtain rfl : j = j' := by injection hj'
                have hp := (List.mem_filter.mp hr).2
                cases hcell : cellAt r.2 j with
                | num x => exact ⟨x, rfl⟩
                | na => rw [hcell] at hp; cases hp
                | str s => rw [hcell] at hp; cases hp

/-- The same guarantee for one z-score pass. -/
theorem zscoreStep_props {acc u : Table} {c : String}
    (h : zscoreStep acc c = Except.ok u) :
    u.header = acc.header ∧ (∀ r ∈ u.rows, r ∈ acc.rows) ∧
    (∀ j, acc.colIdx c = some j → ∀ r ∈ u.rows, ∃ x, cellAt r.2 j = Val.num x) := by
  cases hcol : acc.colIdx c with
  | none =>
      simp only [zscoreStep, hcol] at h
      cases h
      exact ⟨rfl, fun r hr => hr, fun j hj => nomatch hj⟩
  | some j =>
      simp only [zscoreStep, hcol] at h
      cases hd : acc.dtypeAt j with
      | object => simp only [hd] at h; exact nomatch h
      | numeric =>
        simp only [hd] at h
        cases hm : meanQ (acc.colNums j) with
        | none =>
            simp only [hm] at h
            cases h
            exact ⟨rfl, by simp, by simp⟩
        | some m =>
            simp only [hm] at h
            cases hv : sampleVarQ (acc.colNums j) with
            | none =>
                simp only [hv] at h; cases h
                exact ⟨rfl, by simp, by simp⟩
            | some v =>
                simp only [hv] at h
                by_cases hpos : 0 < v
                · rw [if_pos hpos] at h
                  cases h
                  refine ⟨rfl, fun r hr => (List.mem_filter.mp hr).1, ?_⟩
                  intro j' hj' r hr
                  obtain rfl : j = j' := by injection hj'
                  have hp := (List.mem_filter.mp hr).2
                  cases hcell : cellAt r.2 j with
                  | num x => exact ⟨x, rfl⟩
                  | na => rw [hcell] at hp; cases hp
                  | str s => rw [hcell] at hp; cases hp
                · rw [if_neg hpos] at h
                  cases h
                  exact ⟨rfl, by simp, by simp⟩

/-- Folding a per-column filtering pass: the header survives, rows only
shrink, and each selected column's guarantee holds in the final frame. -/
theorem foldlM_filter_prop (step : Table → String → Except String Table)
    (hstep : ∀ acc c u, step acc c = Except.ok u →
      u.header = acc.header ∧ (∀ r ∈ u.rows, r ∈ acc.rows) ∧
      (∀ j, acc.colIdx c = some j → ∀ r ∈ u.rows, ∃ x, cellAt r.2 j = Val.num x)) :
    ∀ (cs : List String) (t t' : Table), List.foldlM step t cs = Except.ok t' →
      t'.header = t.header ∧ (∀ r ∈ t'.rows, r ∈ t.rows) ∧
      (∀ c ∈ cs, ∀ j, t.colIdx c = some j →
        ∀ r ∈ t'.rows, ∃ x, cellAt r.2 j = Val.num x) := by
  intro cs
  induction cs with
  | nil =>
      intro t t' h
      cases h
      exact ⟨rfl, fun r hr => hr, by simp⟩
  | cons c cs ih =>
      intro t t' h
      rw [List.foldlM_cons] at h
      cases h1 : step t c with
      | error e => rw [h1] at h; cases h
      | ok t₁ =>
          rw [h1] at h
          have hfold : List.foldlM step t₁ cs = Except.ok t' := h
          have hs := hstep t c t₁ h1
          have hi := ih t₁ t' hfold
          refine ⟨hi.1.trans hs.1, fun r hr => hs.2.1 r (hi.2.1 r hr), ?_⟩
          intro c' hc' j hj r hr
          rcases List.mem_cons.mp hc' with hc' | hc'
          · subst hc'
            exact hs.2.2 j hj r (hi.2.1 r hr)
          · have hj₁ : t₁.colIdx c' = some j := by
              rw [Table.colIdx_congr hs.1]; exact hj
            exact hi.2.2 c' hc' j hj₁ r hr

/-- C9: when outlier removal (IQR or z-score) succeeds, every row of
the result holds an actual number in each selected column present in
the table — rows whose cell there was missing are removed along with
the outliers (a NaN cell satisfies neither bound comparison nor the
z-score test), so the filtered columns of the result contain no
missing values. -/
theorem C9_remove_outliers_drops_missing (t : Table) (columns : Option (List String))
    (method : String) (t' : Table) (hm : method = "iqr" ∨ method = "zscore")
    (h : remove_outliers t columns method = Except.ok t') :
    ∀ c ∈ resolveNumCols t columns, ∀ j, t.colIdx c = some j →
      ∀ r ∈ t'.rows, ∃ x, cellAt r.2 j = Val.num x := by
  have main : ∀ (step : Table → String → Except String Table),
      (∀ acc c u, step acc c = Except.ok u →
        u.header = acc.header ∧ (∀ r ∈ u.rows, r ∈ acc.rows) ∧
        (∀ j, acc.colIdx c = some j → ∀ r ∈ u.rows, ∃ x, cellAt r.2 j = Val.num x)) →
      ((resolveNumCols t columns).foldlM step t).map Table.resetIndex = Except.ok t' →
      ∀ c ∈ resolveNumCols t columns, ∀ j, t.colIdx c = some j →
        ∀ r ∈ t'.rows, ∃ x, cellAt r.2 j = Val.num x := by
    intro step hstep hfold c hc j hj r hr
    cases hf : List.foldlM step t (resolveNumCols t columns) with
    | error e => rw [hf] at hfold; cases hfold
    | ok u =>
        rw [hf] at hfold
        cases hfold
        rcases Table.mem_resetIndex_snd hr with ⟨r₀, hr₀, hsnd⟩
        rcases (foldlM_filter_prop step hstep _ t u hf).2.2 c hc j hj r₀ hr₀ with ⟨x, hx⟩
        exact ⟨x, by rw [← hsnd]; exact hx⟩
  rcases hm with hm | hm <;> subst hm
  · exact main iqrStep (fun acc c u hu => iqrStep_props hu)
      (by simpa [remove_outliers] using h)
  · exact main zscoreStep (fun acc c u hu => zscoreStep_props hu)
      (by simpa [remove_outliers] using h)

/-- Concrete frame for the C9 witness: a numeric column with a missing
cell among ordinary values. -/
def naT : Table :=
  { header := [("a", Dtype.numeric)],
    rows := [(0, [Val.num 1]), (1, [Val.num 2]), (2, [Val.na]), (3, [Val.num 3])] }

def naT1 : Table :=
  { header := [("a", Dtype.numeric)],
    rows := [(0, [Val.num 1]), (1, [Val.num 2]), (2, [Val.num 3])] }

theorem naT_iqr : remove_outliers naT none "iqr" = Except.ok naT1 := by
  norm_num [remove_outliers, resolveNumCols, naT, naT1, Table.numericColNames,
    List.foldlM, iqrStep, Table.colIdx, Table.colNames, List.findIdx?_cons,
    List.findIdx?_nil, Table.dtypeAt,
    quantileQ, sortQ, sortBy, insertLe, Table.colNums, cellAt,
    Table.resetIndex, List.mapIdx, List.mapIdx.go, List.filter, Except.map]

/-- Witness for C9: the theorem applied to `naT` with the IQR method;
the surviving rows all carry numbers in the filtered column. -/
theorem C9_remove_outliers_drops_missing_witness :
    remove_outliers naT none "iqr" = Except.ok naT1 ∧
    (∀ r ∈ naT1.rows, ∃ x, cellAt r.2 0 = Val.num x) :=
  ⟨naT_iqr,
   C9_remove_outliers_drops_missing naT none "iqr" naT1 (Or.inl rfl) naT_iqr
     "a" (by decide) 0 (by decide)⟩

/-! ## Claim C3 — mean fill -/

theorem List.getElem?_mapIdx' {α β : Type} (f : Nat → α → β) (l : List α) (j : Nat) :
    (l.mapIdx f)[j]? = Option.map (f j) l[j]? := by
  rw [List.mapIdx_eq_enum_map, List.getElem?_map, List.getElem?_enum]
  cases l[j]? <;> rfl

theorem cellAt_fillRow (fills : List (Option Val)) (cells : List Val) (j : Nat)
    (hj : j < cells.length) :
    cellAt (fillRow fills cells) j =
      if (cellAt cells j).isNA then (fills.getD j none).getD (cellAt cells j)
      else cellAt cells j := by
  have h1 : cells[j]? = some cells[j] := List.getElem?_eq_getElem hj
  simp [cellAt, fillRow, List.getD_eq_getElem?_getD, List.getElem?_mapIdx', h1]

theorem colCells_fillNA (t : Table) (fills : List (Option Val)) (j : Nat)
    (hlen : ∀ r ∈ t.rows, j < r.2.length) :
    (t.fillNA fills).colCells j = (t.colCells j).map (fun v =>
      if v.isNA then (fills.getD j none).getD v else v) := by
  simp only [Table.colCells, Table.fillNA, List.map_map]
  apply List.map_congr_left
  intro r hr
  exact cellAt_fillRow fills r.2 j (hlen r hr)

theorem meanFillVals_getD_num (t : Table) (j : Nat) (hj : j < t.header.length)
    (hd : t.dtypeAt j = Dtype.numeric) :
    (meanFillVals t).getD j none = (meanQ (t.colNums j)).map Val.num := by
  have h1 : t.header[j]? = some (t.header[j]) := List.getElem?_eq_getElem hj
  have hd' : (t.header[j]).2 = Dtype.numeric := by
    simpa [Table.dtypeAt, List.getD_eq_getElem?_getD, h1] using hd
  simp [meanFillVals, List.getD_eq_getElem?_getD, List.getElem?_mapIdx', h1, hd']

theorem meanFillVals_getD_obj (t : Table) (j : Nat) (hj : j < t.header.length)
    (hd : t.dtypeAt j = Dtype.object) :
    (meanFillVals t).getD j none = modeVal (t.colCells j) := by
  have h1 : t.header[j]? = some (t.header[j]) := List.getElem?_eq_getElem hj
  have hd' : (t.header[j]).2 = Dtype.object := by
    simpa [Table.dtypeAt, List.getD_eq_getElem?_getD, h1] using hd
  simp [meanFillVals, List.getD_eq_getElem?_getD, List.getElem?_mapIdx', h1, hd']

theorem Table.WF_rowlen {t : Table} (ht : t.WF) :
    ∀ r ∈ t.rows, r.2.length = t.header.length := by
  intro r hr
  have h := (List.all_eq_true.mp ht) r hr
  simp only [Bool.and_eq_true, beq_iff_eq] at h
  exact h.1

/-- The column [1, 2, NaN, 4] of the spec's concrete example. -/
def meanT : Table :=
  { header := [("a", Dtype.numeric)],
    rows := [(0, [Val.num 1]), (1, [Val.num 2]), (2, [Val.na]), (3, [Val.num 4])] }

def meanT1 : Table :=
  { header := [("a", Dtype.numeric)],
    rows := [(0, [Val.num 1]), (1, [Val.num 2]), (2, [Val.num (7/3)]),
             (3, [Val.num 4])] }

/-- C3: mean fill.  On every well-formed table the mean-fill policy
(1) reindexes the result densely, (2) fills each numeric column's
missing cells with that column's mean over its non-missing values,
(3) leaves a numeric column untouched when the mean is undefined
(all-missing column), (4) fills each non-numeric column's missing
cells with its most frequent value, (5) leaves a non-missing-value
fill out where the mode is undefined (all-missing column), and
(6) leaves zero nulls in any numeric column that had a mean.  In
particular the numeric column [1, 2, NaN, 4] becomes
[1, 2, 7/3, 4] with no nulls left. -/
theorem C3_mean_fill :
    (∀ t : Table, t.WF →
      ∃ t₂, handle_missing_values t "用均值填充" = Except.ok t₂ ∧
        t₂.rows.map Prod.fst = List.range t.nrows ∧
        (∀ j m, j < t.ncols → t.dtypeAt j = Dtype.numeric →
          meanQ (t.colNums j) = some m →
          t₂.colCells j = (t.colCells j).map
            (fun v => if v.isNA then Val.num m else v)) ∧
        (∀ j, j < t.ncols → t.dtypeAt j = Dtype.numeric →
          meanQ (t.colNums j) = none → t₂.colCells j = t.colCells j) ∧
        (∀ j w, j < t.ncols → t.dtypeAt j = Dtype.object →
          modeVal (t.colCells j) = some w →
          t₂.colCells j = (t.colCells j).map
            (fun v => if v.isNA then w else v)) ∧
        (∀ j, j < t.ncols → t.dtypeAt j = Dtype.object →
          modeVal (t.colCells j) = none → t₂.colCells j = t.colCells j) ∧
        (∀ j m, j < t.ncols → t.dtypeAt j = Dtype.numeric →
          meanQ (t.colNums j) = some m →
          ∀ v ∈ t₂.colCells j, v.isNA = false)) ∧
    handle_missing_values meanT "用均值填充" = Except.ok meanT1 ∧
    (∀ v ∈ meanT1.colCells 0, v.isNA = false) := by
  have hconc : handle_missing_values meanT "用均值填充" = Except.ok meanT1 := by
    simp [handle_missing_values, meanT, meanT1, Table.fillNA, meanFillVals,
      Table.colNums, Table.colCells, cellAt, fillRow, meanQ, Table.resetIndex,
      List.mapIdx, List.mapIdx.go, Val.isNA, Option.getD]
    norm_num
  refine ⟨?_, hconc, by decide⟩
  intro t ht
  refine ⟨(t.fillNA (meanFillVals t)).resetIndex, ?_, ?_, ?_, ?_, ?_, ?_, ?_⟩
  · simp [handle_missing_values]
  · rw [Table.idx_resetIndex]
    congr 1
    simp [Table.nrows, Table.fillNA]
  · intro j m hj hd hm
    rw [Table.colCells_resetIndex,
      colCells_fillNA t _ j (fun r hr => (Table.WF_rowlen ht r hr) ▸ hj),
      meanFillVals_getD_num t j hj hd, hm]
    rfl
  · intro j hj hd hm
    rw [Table.colCells_resetIndex,
      colCells_fillNA t _ j (fun r hr => (Table.WF_rowlen ht r hr) ▸ hj),
      meanFillVals_getD_num t j hj hd, hm]
    simp
  · intro j w hj hd hm
    rw [Table.colCells_resetIndex,
      colCells_fillNA t _ j (fun r hr => (Table.WF_rowlen ht r hr) ▸ hj),
      meanFillVals_getD_obj t j hj hd, hm]
    rfl
  · intro j hj hd hm
    rw [Table.colCells_resetIndex,
      colCells_fillNA t _ j (fun r hr => (Table.WF_rowlen ht r hr) ▸ hj),
      meanFillVals_getD_obj t j hj hd, hm]
    simp
  · intro j m hj hd hm v hv
    rw [Table.colCells_resetIndex,
      colCells_fillNA t _ j (fun r hr => (Table.WF_rowlen ht r hr) ▸ hj),
      meanFillVals_getD_num t j hj hd, hm] at hv
    rcases List.mem_map.mp hv with ⟨w, _, hw⟩
    by_cases hna : w.isNA = true
    · simp [hna] at hw
      rw [← hw]
      rfl
    · simp only [Bool.not_eq_true] at hna
      simp [hna] at hw
      rw [← hw]
      exact hna

/-- Witness for C3: the general clause applied to the concrete frame
`meanT` (its well-formedness discharged by computation). -/
theorem C3_mean_fill_witness :
    meanT.WF ∧
    (∃ t₂, handle_missing_values meanT "用均值填充" = Except.ok t₂ ∧
      t₂.rows.map Prod.fst = List.range meanT.nrows ∧
      (∀ j m, j < meanT.ncols → meanT.dtypeAt j = Dtype.numeric →
        meanQ (meanT.colNums j) = some m →
        t₂.colCells j = (meanT.colCells j).map
          (fun v => if v.isNA then Val.num m else v)) ∧
      (∀ j, j < meanT.ncols → meanT.dtypeAt j = Dtype.numeric →
        meanQ (meanT.colNums j) = none → t₂.colCells j = meanT.colCells j) ∧
      (∀ j w, j < meanT.ncols → meanT.dtypeAt j = Dtype.object →
        modeVal (meanT.colCells j) = some w →
        t₂.colCells j = (meanT.colCells j).map
          (fun v => if v.isNA then w else v)) ∧
      (∀ j, j < meanT.ncols → meanT.dtypeAt j = Dtype.object →
        modeVal (meanT.colCells j) = none → t₂.colCells j = meanT.colCells j) ∧
      (∀ j m, j < meanT.ncols → meanT.dtypeAt j = Dtype.numeric →
        meanQ (meanT.colNums j) = some m →
        ∀ v ∈ t₂.colCells j, v.isNA = false)) :=
  ⟨by rfl, C3_mean_fill.1 meanT (by rfl)⟩

/-! ## Claim C4 — IQR outlier removal -/

/-- The spec's concrete IQR example: column values [1, 2, 3, 4, 100]. -/
def iqrT : Table :=
  { header := [("a", Dtype.numeric)],
    rows := [(0, [Val.num 1]), (1, [Val.num 2]), (2, [Val.num 3]),
             (3, [Val.num 4]), (4, [Val.num 100])] }

def iqrT1 : Table :=
  { header := [("a", Dtype.numeric)],
    rows := [(0, [Val.num 1]), (1, [Val.num 2]), (2, [Val.num 3]),
             (3, [Val.num 4])] }

/-- C4: IQR outlier removal.  (1) The selected columns (defaulting to
all numeric columns) are processed by a cumulative left fold of the
per-column filter; (2) the fold really is cumulative — each column's
filter runs on the outcome of the previous ones, so a row failing any
selected column's bound is excluded; (3) one filter pass on a numeric
column with quantiles Q1 and Q3 retains exactly the rows whose cell
value lies in [Q1 - 1.5*IQR, Q3 + 1.5*IQR] with IQR = Q3 - Q1; and
(4) concretely, for the single column [1, 2, 3, 4, 100] the fold
computes Q1 = 2, Q3 = 4 and removes the row with 100, keeping
1, 2, 3, 4. -/
theorem C4_iqr_outlier_removal :
    (∀ (t : Table) (columns : Option (List String)),
        remove_outliers t columns "iqr" =
          ((resolveNumCols t columns).foldlM iqrStep t).map Table.resetIndex ∧
        resolveNumCols t none = t.numericColNames) ∧
    (∀ (t : Table) (c : String) (cs : List String),
        List.foldlM iqrStep t (c :: cs) =
          iqrStep t c >>= fun t₁ => List.foldlM iqrStep t₁ cs) ∧
    (∀ (acc : Table) (c : String) (j : Nat) (q1 q3 : ℚ),
        acc.colIdx c = some j → acc.dtypeAt j = Dtype.numeric →
        quantileQ 1 4 (acc.colNums j) = some q1 →
        quantileQ 3 4 (acc.colNums j) = some q3 →
        ∃ u, iqrStep acc c = Except.ok u ∧ u.header = acc.header ∧
          ∀ r, r ∈ u.rows ↔ r ∈ acc.rows ∧
            ∃ x, cellAt r.2 j = Val.num x ∧
              q1 - 3/2 * (q3 - q1) ≤ x ∧ x ≤ q3 + 3/2 * (q3 - q1)) ∧
    quantileQ 1 4 (iqrT.colNums 0) = some 2 ∧
    quantileQ 3 4 (iqrT.colNums 0) = some 4 ∧
    remove_outliers iqrT none "iqr" = Except.ok iqrT1 := by
  refine ⟨?_, ?_, ?_, ?_, ?_, ?_⟩
  · intro t columns
    exact ⟨by simp [remove_outliers], rfl⟩
  · intro t c cs
    exact List.foldlM_cons _ _ _ _
  · intro acc c j q1 q3 hcol hd hq1 hq3
    refine ⟨{ acc with rows := acc.rows.filter (fun r =>
        match cellAt r.2 j with
        | Val.num x => decide (q1 - 3/2 * (q3 - q1) ≤ x) &&
            decide (x ≤ q3 + 3/2 * (q3 - q1))
        | _ => false) }, by simp only [iqrStep, hcol, hd, hq1, hq3], rfl, ?_⟩
    intro r
    constructor
    · intro hr
      have h2 := List.mem_filter.mp hr
      refine ⟨h2.1, ?_⟩
      have hp := h2.2
      cases hcell : cellAt r.2 j with
      | na => rw [hcell] at hp; cases hp
      | str s => rw [hcell] at hp; cases hp
      | num x =>
          rw [hcell] at hp
          rw [Bool.and_eq_true] at hp
          exact ⟨x, rfl, of_decide_eq_true hp.1, of_decide_eq_true hp.2⟩
    · rintro ⟨hmem, x, hcell, h1, h2⟩
      refine List.mem_filter.mpr ⟨hmem, ?_⟩
      rw [hcell]
      simp only [Bool.and_eq_true]
      exact ⟨decide_eq_true h1, decide_eq_true h2⟩
  · norm_num [quantileQ, iqrT, Table.colNums, cellAt, sortQ, sortBy, insertLe,
      List.getD, Int.toNat_ofNat]
  · norm_num [quantileQ, iqrT, Table.colNums, cellAt, sortQ, sortBy, insertLe,
      List.getD, Int.toNat_ofNat]
  · norm_num [remove_outliers, resolveNumCols, iqrT, iqrT1,
      Table.numericColNames, List.foldlM, iqrStep, Table.colIdx,
      Table.colNames, List.findIdx?_cons, List.findIdx?_nil, Table.dtypeAt,
      quantileQ, sortQ, sortBy, insertLe,
      Table.colNums, cellAt, Table.resetIndex, List.mapIdx, List.mapIdx.go,
      List.filter, Except.map, List.getD]

/-- Witness for C4: the single-pass clause applied to the concrete
column [1, 2, 3, 4, 100] with Q1 = 2 and Q3 = 4. -/
theorem C4_iqr_outlier_removal_witness :
    iqrT.colIdx "a" = some 0 ∧
    (∃ u, iqrStep iqrT "a" = Except.ok u ∧ u.header = iqrT.header ∧
      ∀ r, r ∈ u.rows ↔ r ∈ iqrT.rows ∧
        ∃ x, cellAt r.2 0 = Val.num x ∧
          2 - 3/2 * (4 - 2) ≤ x ∧ x ≤ 4 + 3/2 * (4 - 2)) :=
  ⟨by decide,
   C4_iqr_outlier_removal.2.2.1 iqrT "a" 0 2 4 (by decide) rfl
     (by norm_num [quantileQ, iqrT, Table.colNums, cellAt, sortQ, sortBy,
       insertLe, List.getD])
     (by norm_num [quantileQ, iqrT, Table.colNums, cellAt, sortQ, sortBy,
       insertLe, List.getD])⟩

/-! ## Claim C10 — label encoding stringifies first, so NaN becomes an
ordinary category and the encoded columns hold integer codes -/

theorem insertLe_perm {α : Type} (le : α → α → Bool) (x : α) (l : List α) :
    (insertLe le x l).Perm (x :: l) := by
  induction l with
  | nil => simp [insertLe]
  | cons y ys ih =>
      by_cases h : le x y
      · simp [insertLe, h]
      · simp only [insertLe, h, if_false]
        exact (List.Perm.cons y ih).trans (List.Perm.swap x y ys)

theorem sortBy_perm {α : Type} (le : α → α → Bool) (l : List α) :
    (sortBy le l).Perm l := by
  induction l with
  | nil => simp [sortBy]
  | cons x xs ih =>
      exact (insertLe_perm le x (sortBy le xs)).trans (List.Perm.cons x ih)

theorem mem_sortBy {α : Type} {le : α → α → Bool} {a : α} {l : List α} :
    a ∈ sortBy le l ↔ a ∈ l := (sortBy_perm le l).mem_iff

theorem cellAt_set (l : List Val) (j : Nat) (v : Val) (i : Nat) :
    cellAt (l.set j v) i =
      if j = i ∧ j < l.length then v else cellAt l i := by
  simp only [cellAt, List.getD_eq_getElem?_getD, List.getElem?_set]
  by_cases h1 : j = i
  · subst h1
    by_cases h2 : j < l.length
    · simp [h2]
    · simp only [h2, and_false, if_false, if_neg h2]
      rw [List.getElem?_eq_none (Nat.le_of_not_lt h2)]
      simp [h2]
  · simp [h1]

theorem Table.colNames_setCol (t : Table) (j : Nat) (d : Dtype) (cs : List Val) :
    (t.setCol j d cs).colNames = t.colNames := by
  apply List.ext_getElem?
  intro n
  simp only [Table.colNames, Table.setCol, List.getElem?_map, List.getElem?_mapIdx']
  cases t.header[n]? with
  | none => rfl
  | some p => by_cases h : n = j <;> simp [h]

theorem Table.colIdx_setCol (t : Table) (j : Nat) (d : Dtype) (cs : List Val) :
    ∀ c, (t.setCol j d cs).colIdx c = t.colIdx c := by
  intro c
  simp [Table.colIdx, Table.colNames_setCol]

theorem Table.colIdx_lt {t : Table} {c : String} {j : Nat}
    (h : t.colIdx c = some j) : j < t.header.length := by
  obtain ⟨hlt, -⟩ := List.findIdx?_eq_some_iff_getElem.mp h
  simpa [Table.colNames] using hlt

theorem labelStep_colIdx (t : Table) (c' c : String) :
    (labelStep t c').colIdx c = t.colIdx c := by
  unfold labelStep
  cases h : t.colIdx c' with
  | none => rfl
  | some j => exact Table.colIdx_setCol t j _ _ c

/-- Every output of the label encoder is a natural-number code. -/
theorem labelEncodeCells_mem {cells : List Val} {v : Val}
    (hv : v ∈ labelEncodeCells cells) : ∃ n : ℕ, v = Val.num n := by
  rcases List.mem_map.mp hv with ⟨s, _, hs⟩
  exact ⟨_, hs.symm⟩

/-- "Every row of the result carries a natural-number code in column
`j`." -/
def ColCode (j : Nat) (rows : List (Nat × List Val)) : Prop :=
  ∀ r ∈ rows, ∃ n : ℕ, cellAt r.2 j = Val.num n

theorem mem_rows_setCol {t : Table} {j : Nat} {d : Dtype} {cs : List Val}
    {r' : Nat × List Val} (h : r' ∈ (t.setCol j d cs).rows) :
    ∃ p ∈ t.rows.zip cs, r' = (p.1.1, p.1.2.set j p.2) := by
  rcases List.mem_map.mp h with ⟨p, hp, he⟩
  exact ⟨p, hp, he.symm⟩

theorem labelStep_preserves_code {t : Table} {c : String} {j : Nat}
    (h : ColCode j t.rows) : ColCode j (labelStep t c).rows := by
  unfold labelStep
  cases hc : t.colIdx c with
  | none => exact h
  | some j' =>
      intro r' hr'
      rcases mem_rows_setCol hr' with ⟨p, hp, he⟩
      subst he
      have hmem := List.of_mem_zip hp
      rw [show (p.1.1, p.1.2.set j' p.2).2 = p.1.2.set j' p.2 from rfl, cellAt_set]
      by_cases hcase : j' = j ∧ j' < p.1.2.length
      · rw [if_pos hcase]
        rcases labelEncodeCells_mem hmem.2 with ⟨n, hn⟩
        exact ⟨n, hn⟩
      · rw [if_neg hcase]
        exact h p.1 hmem.1

theorem labelStep_establishes {t : Table} {c : String} {j : Nat}
    (hj : t.colIdx c = some j) (hlen : ∀ r ∈ t.rows, j < r.2.length) :
    ColCode j (labelStep t c).rows := by
  unfold labelStep
  rw [hj]
  intro r' hr'
  rcases mem_rows_setCol hr' with ⟨p, hp, he⟩
  subst he
  have hmem := List.of_mem_zip hp
  rw [show (p.1.1, p.1.2.set j p.2).2 = p.1.2.set j p.2 from rfl, cellAt_set,
    if_pos ⟨rfl, hlen p.1 hmem.1⟩]
  exact labelEncodeCells_mem hmem.2

theorem labelStep_rowlen {t : Table} {c : String} {N : Nat}
    (h : ∀ r ∈ t.rows, r.2.length = N) :
    ∀ r ∈ (labelStep t c).rows, r.2.length = N := by
  unfold labelStep
  cases hc : t.colIdx c with
  | none => exact h
  | some j' =>
      intro r' hr'
      rcases mem_rows_setCol hr' with ⟨p, hp, he⟩
      subst he
      simpa using h p.1 (List.of_mem_zip hp).1

theorem foldl_labelStep_preserves {j : Nat} (cols : List String) (t : Table)
    (h : ColCode j t.rows) : ColCode j (cols.foldl labelStep t).rows := by
  induction cols generalizing t with
  | nil => exact h
  | cons c cs ih => exact ih (labelStep t c) (labelStep_preserves_code h)

theorem foldl_labelStep_rowlen {N : Nat} (cols : List String) (t : Table)
    (h : ∀ r ∈ t.rows, r.2.length = N) :
    ∀ r ∈ (cols.foldl labelStep t).rows, r.2.length = N := by
  induction cols generalizing t with
  | nil => exact h
  | cons c cs ih => exact ih (labelStep t c) (labelStep_rowlen h)

theorem foldl_labelStep_code (cols : List String) (t : Table) (N : Nat)
    (hlen : ∀ r ∈ t.rows, r.2.length = N) (c : String) (j : Nat)
    (hc : c ∈ cols) (hj : t.colIdx c = some j) (hjN : j < N) :
    ColCode j (cols.foldl labelStep t).rows := by
  induction cols generalizing t with
  | nil => cases hc
  | cons c₀ cs ih =>
      rcases List.mem_cons.mp hc with hc0 | hc0
      · subst hc0
        refine foldl_labelStep_preserves cs (labelStep t c) ?_
        exact labelStep_establishes hj (fun r hr => (hlen r hr) ▸ hjN)
      · refine ih (labelStep t c₀) (labelStep_rowlen hlen) hc0 ?_
        rw [labelStep_colIdx]
        exact hj

/-- C10: label encoding.  (1) A missing cell is stringified to the
ordinary category "nan", which therefore appears among the encoder's
classes, and the cell receives that class's integer position as its
code; (2) after `encode_categorical(..., method="label")` every
selected column present in a well-formed table holds natural-number
codes in every row — no missing values remain there. -/
theorem C10_label_encoding_stringifies_nan :
    (∀ (cells : List Val) (i : Nat), i < cells.length →
      cells.getD i Val.na = Val.na →
      "nan" ∈ sortBy strLe (cells.map Val.pyStr).dedup ∧
      (labelEncodeCells cells)[i]? = some (Val.num
        (((sortBy strLe (cells.map Val.pyStr).dedup).indexOf "nan" : Nat) : ℚ))) ∧
    (∀ (t : Table) (cols : List String) (t' : Table), t.WF →
      encode_categorical t (some cols) "label" = Except.ok t' →
      ∀ c ∈ cols, ∀ j, t.colIdx c = some j →
        ∀ r ∈ t'.rows, ∃ n : ℕ, cellAt r.2 j = Val.num n) := by
  constructor
  · intro cells i hi hna
    have hcell : cells[i]? = some (Val.na) := by
      have h1 : cells[i]? = some cells[i] := List.getElem?_eq_getElem hi
      have h2 : cells[i] = Val.na := by
        rw [List.getD_eq_getElem?_getD, h1] at hna
        exact hna
      rw [h1, h2]
    constructor
    · rw [mem_sortBy, List.mem_dedup]
      refine List.mem_map.mpr ⟨Val.na, ?_, rfl⟩
      exact List.getElem?_mem hcell
    · simp only [labelEncodeCells, List.getElem?_map, hcell]
      rfl
  · intro t cols t' ht henc c hc j hj
    have ht' : t' = cols.foldl labelStep t := by
      simp only [encode_categorical] at henc
      simp at henc
      exact henc.symm
    subst ht'
    exact foldl_labelStep_code cols t t.header.length (Table.WF_rowlen ht)
      c j hc hj (Table.colIdx_lt hj)

/-- Concrete frame for the C10 witness: an object column with a
string and a missing cell. -/
def labT : Table :=
  { header := [("c", Dtype.object)], rows := [(0, [Val.str "x"]), (1, [Val.na])] }

def labT1 : Table :=
  { header := [("c", Dtype.numeric)], rows := [(0, [Val.num 1]), (1, [Val.num 0])] }

theorem labT_enc : encode_categorical labT (some ["c"]) "label" = Except.ok labT1 := by
  simp [encode_categorical, labT, labT1, labelStep, Table.colIdx, Table.colNames,
    List.findIdx?_cons, labelEncodeCells, Val.pyStr, Table.colCells, cellAt,
    sortBy, insertLe, Table.setCol, List.mapIdx, List.mapIdx.go, List.indexOf,
    List.findIdx, List.findIdx.go, List.dedup, List.pwFilter]

/-- Witness for C10: the theorem applied to the cells
`[str "x", NaN]` and to the one-column frame `labT` — the missing
cell becomes the category "nan" with code 0 and the encoded column
holds the integer codes 1, 0. -/
theorem C10_label_encoding_stringifies_nan_witness :
    ("nan" ∈ sortBy strLe (([Val.str "x", Val.na]).map Val.pyStr).dedup ∧
      (labelEncodeCells [Val.str "x", Val.na])[1]? = some (Val.num
        (((sortBy strLe
            (([Val.str "x", Val.na]).map Val.pyStr).dedup).indexOf "nan" : Nat) : ℚ))) ∧
    encode_categorical labT (some ["c"]) "label" = Except.ok labT1 ∧
    (∀ r ∈ labT1.rows, ∃ n : ℕ, cellAt r.2 0 = Val.num n) :=
  ⟨C10_label_encoding_stringifies_nan.1 [Val.str "x", Val.na] 1 (by decide) rfl,
   labT_enc,
   C10_label_encoding_stringifies_nan.2 labT ["c"] labT1 (by rfl) labT_enc
     "c" (by decide) 0 (by decide)⟩

/-! ## Claim C6 — one-hot encoding

`pd.get_dummies` runs with its default `dummy_na=False`: a NaN cell
gets no indicator column and an all-zero indicator row.  The claim's
"every row sums to 1" therefore fails on a column containing a missing
value; C6 is corrected to restrict the row-sum-1 guarantee to rows
whose cell is non-missing (NaN rows sum to 0). -/

/-- Numeric reading of a cell (indicator columns hold 0/1 numbers). -/
def numOr0 : Val → ℚ
  | Val.num x => x
  | _ => 0

/-- Column "c" with values ["a", NaN] next to a numeric column. -/
def ohNA : Table :=
  { header := [("c", Dtype.object), ("b", Dtype.numeric)],
    rows := [(0, [Val.str "a", Val.num 1]), (1, [Val.na, Val.num 2])] }

/-- One-hot of `ohNA`: one indicator column "c_a"; the NaN row gets 0. -/
def ohNA1 : Table :=
  { header := [("b", Dtype.numeric), ("c_a", Dtype.numeric)],
    rows := [(0, [Val.num 1, Val.num 1]), (1, [Val.num 2, Val.num 0])] }

/-- C6, counterexample: one-hot encoding the 1-valued (plus NaN)
column "c" of `ohNA` adds one indicator column, but the row whose cell
is missing sums to 0 across the new columns, not 1 — the claim's
universal "every row sums to 1" is false on this frame. -/
theorem C6_counterexample :
    encode_categorical ohNA (some ["c"]) "onehot" = Except.ok ohNA1 ∧
    ¬ (∀ r ∈ ohNA1.rows, ((r.2.drop 1).map numOr0).sum = 1) := by
  constructor
  · simp [encode_categorical, ohNA, ohNA1, getDummies, dummyVals, Table.colIdx,
      Table.colNames, List.findIdx?_cons, Table.colCells, cellAt, sortBy,
      insertLe, Val.pyStr, List.dedup, List.pwFilter, List.filter, List.flatMap]
  · intro hall
    have h := hall (1, [Val.num 2, Val.num 0]) (by simp [ohNA1])
    simp [numOr0] at h

theorem sum_indicator_count (x : Val) (l : List Val) :
    (l.map (fun v => if x == v then (1:ℚ) else 0)).sum = (l.count x : ℚ) := by
  induction l with
  | nil => simp
  | cons y ys ih =>
      by_cases h : x = y
      · subst h
        simp only [List.map_cons, List.sum_cons, beq_self_eq_true, if_true, ih,
          List.count_cons, beq_self_eq_true]
        push_cast
        ring
      · have h1 : (x == y) = false := beq_eq_false_iff_ne.mpr h
        simp only [List.map_cons, List.sum_cons, h1, if_false, ih,
          List.count_cons, h1]
        simp
        exact fun hyx => h hyx.symm

theorem dummyVals_nodup (t : Table) (c : String) : (dummyVals t c).Nodup := by
  unfold dummyVals
  cases t.colIdx c with
  | none => simp
  | some j => exact ((sortBy_perm _ _).nodup_iff).mpr (List.nodup_dedup _)

theorem length_filterMap_if {α β : Type} (p : α → Bool) (f : α → β) (l : List α) :
    (l.filterMap (fun x => if p x then none else some (f x))).length =
      l.countP (fun x => !p x) := by
  induction l with
  | nil => rfl
  | cons x xs ih =>
      by_cases h : p x <;>
        simp [List.filterMap_cons, h, ih, List.countP_cons]

theorem countP_not {α : Type} (p : α → Bool) (l : List α) :
    l.countP (fun a => !p a) + l.countP p = l.length := by
  induction l with
  | nil => rfl
  | cons x xs ih => by_cases h : p x <;> simp [List.countP_cons, h] <;> omega

/-- C6, amended: one-hot encoding a column `c` (present once) with
`k` distinct non-missing values (1) keeps the other columns, in
order and with their cells untouched, removes `c`, and appends the
`k` indicator columns named `c + "_" + value`; (2) `c` is gone from
the column names; (3) exactly `k` columns are added; (4) `k` is the
number of distinct non-missing values; and (5) each row sums to 1
across the new columns when its `c`-cell is non-missing, and to 0
when it is missing (`dummy_na=False`). -/
theorem C6_one_hot_encoding (t : Table) (c : String) (j : Nat) (t' : Table)
    (ht : t.WF) (hj : t.colIdx c = some j) (hcount : t.colNames.count c = 1)
    (henc : encode_categorical t (some [c]) "onehot" = Except.ok t') :
    t'.header = t.header.filter (fun p => !(p.1 == c)) ++
      (dummyVals t c).map (fun v => (c ++ "_" ++ v.pyStr, Dtype.numeric)) ∧
    t'.rows = t.rows.map (fun r => (r.1,
      (r.2.zip t.header).filterMap
        (fun q => if q.2.1 == c then none else some q.1) ++
      (dummyVals t c).map
        (fun v => if cellAt r.2 j == v then Val.num 1 else Val.num 0))) ∧
    c ∉ t'.colNames ∧
    t'.ncols = (t.ncols - 1) + (dummyVals t c).length ∧
    (dummyVals t c).length =
      ((t.colCells j).filter (fun v => !v.isNA)).dedup.length ∧
    (∀ r ∈ t.rows,
      ((((r.2.zip t.header).filterMap
          (fun q => if q.2.1 == c then none else some q.1) ++
        (dummyVals t c).map
          (fun v => if cellAt r.2 j == v then Val.num 1 else Val.num 0)
        ).drop (t.ncols - 1)).map numOr0).sum
        = if (cellAt r.2 j).isNA then 0 else 1) := by
  have hcontains : ∀ s : String, ([c].contains s) = (s == c) := by
    intro s
    by_cases h : s = c
    · subst h; simp
    · simp [h, beq_eq_false_iff_ne.mpr h]
  have ht' : t' = getDummies t [c] := by
    simp [encode_categorical, hj] at henc
    exact henc.symm
  subst ht'
  have hone : t.header.countP (fun p => (p.1 == c)) = 1 := by
    have h0 := hcount
    rw [Table.colNames, List.count, List.countP_map] at h0
    exact h0
  have hfiltlen :
      (t.header.filter (fun p => !(p.1 == c))).length = t.ncols - 1 := by
    rw [← List.countP_eq_length_filter]
    have := countP_not (fun p : String × Dtype => (p.1 == c)) t.header
    rw [hone] at this
    simp only [Table.ncols]
    omega
  have hkeptlen : ∀ r ∈ t.rows,
      ((r.2.zip t.header).filterMap
        (fun q => if q.2.1 == c then none else some q.1)).length = t.ncols - 1 := by
    intro r hr
    rw [length_filterMap_if (fun q => q.2.1 == c) (fun q => q.1) (r.2.zip t.header)]
    have hzip : (r.2.zip t.header).map Prod.snd = t.header :=
      List.map_snd_zip _ _ (le_of_eq (Table.WF_rowlen ht r hr).symm)
    have h1 : (r.2.zip t.header).countP (fun q => !(q.2.1 == c)) =
        t.header.countP (fun p => !(p.1 == c)) := by
      conv_rhs => rw [← hzip]
      rw [List.countP_map]
      rfl
    rw [h1, ← List.countP_eq_length_filter] at *
    rw [h1] at *
    have := countP_not (fun p : String × Dtype => (p.1 == c)) t.header
    rw [hone] at this
    simp only [Table.ncols]
    omega
  refine ⟨?_, ?_, ?_, ?_, ?_, ?_⟩
  · show (getDummies t [c]).header = _
    simp only [getDummies, List.flatMap_cons, List.flatMap_nil, List.append_nil,
      hcontains]
  · show (getDummies t [c]).rows = _
    simp only [getDummies, List.flatMap_cons, List.flatMap_nil, List.append_nil,
      hcontains, hj]
  · intro hmem
    simp only [Table.colNames, getDummies, List.flatMap_cons, List.flatMap_nil,
      List.append_nil, List.map_append, List.mem_append, List.map_map] at hmem
    rcases hmem with hmem | hmem
    · rcases List.mem_map.mp hmem with ⟨p, hp, hpc⟩
      have h2 := (List.mem_filter.mp hp).2
      rw [hcontains, hpc] at h2
      simp at h2
    · rcases List.mem_map.mp hmem with ⟨v, _, hvc⟩
      have hlen := congrArg String.length hvc
      have hu : ("_" : String).length = 1 := rfl
      simp only [Function.comp_apply, String.length_append, hu] at hlen
      omega
  · show (getDummies t [c]).header.length = _
    simp only [getDummies, List.flatMap_cons, List.flatMap_nil, List.append_nil,
      List.length_append, List.length_map, hcontains]
    rw [hfiltlen]
  · unfold dummyVals
    rw [hj]
    exact (sortBy_perm _ _).length_eq
  · intro r hr
    rw [List.drop_left' (hkeptlen r hr), List.map_map]
    have hcomp : numOr0 ∘ (fun v => if cellAt r.2 j == v then Val.num 1 else Val.num 0)
        = fun v => if cellAt r.2 j == v then (1:ℚ) else 0 := by
      funext v
      by_cases h : cellAt r.2 j = v
      · simp [h, numOr0]
      · simp [h, numOr0, beq_eq_false_iff_ne.mpr h]
    rw [hcomp, sum_indicator_count]
    by_cases hna : (cellAt r.2 j).isNA = true
    · rw [if_pos hna]
      have hcell : cellAt r.2 j = Val.na := by
        cases hc : cellAt r.2 j
        · rfl
        · simp [Val.isNA, hc] at hna
        · simp [Val.isNA, hc] at hna
      have hnotin : cellAt r.2 j ∉ dummyVals t c := by
        intro hm
        unfold dummyVals at hm
        rw [hj, mem_sortBy, List.mem_dedup, List.mem_filter] at hm
        rw [hcell] at hm
        simp [Val.isNA] at hm
      rw [List.count_eq_zero.mpr hnotin]
      norm_num
    · rw [if_neg hna]
      have hmemd : cellAt r.2 j ∈ dummyVals t c := by
        unfold dummyVals
        rw [hj, mem_sortBy, List.mem_dedup, List.mem_filter]
        refine ⟨List.mem_map.mpr ⟨r, hr, rfl⟩, ?_⟩
        simp only [Bool.not_eq_true'] at hna ⊢
        simp [hna]
      rw [List.count_eq_one_of_mem (dummyVals_nodup t c) hmemd]
      norm_num

/-- One-hot witness frame: a clean 2-valued object column with no
missing cells, next to a numeric column. -/
def ohW : Table :=
  { header := [("c", Dtype.object), ("b", Dtype.numeric)],
    rows := [(0, [Val.str "x", Val.num 5]), (1, [Val.str "y", Val.num 6])] }

def ohW1 : Table :=
  { header := [("b", Dtype.numeric), ("c_x", Dtype.numeric),
               ("c_y", Dtype.numeric)],
    rows := [(0, [Val.num 5, Val.num 1, Val.num 0]),
             (1, [Val.num 6, Val.num 0, Val.num 1])] }

theorem ohW_enc : encode_categorical ohW (some ["c"]) "onehot" = Except.ok ohW1 := by
  have hdata : strLe "x" "y" = true := by decide
  simp [encode_categorical, ohW, ohW1, getDummies, dummyVals, Table.colIdx,
    Table.colNames, List.findIdx?_cons, Table.colCells, cellAt, sortBy,
    insertLe, Val.pyStr, List.dedup, List.pwFilter, List.filter, List.flatMap,
    Val.leb]
  rw [if_pos hdata]
  simp [Val.pyStr]

/-- Witness for C6: the amended theorem applied to the concrete frame
`ohW` — the original column is gone and exactly `k = 2` indicator
columns were added. -/
theorem C6_one_hot_encoding_witness :
    encode_categorical ohW (some ["c"]) "onehot" = Except.ok ohW1 ∧
    "c" ∉ ohW1.colNames ∧
    ohW1.ncols = (ohW.ncols - 1) + (dummyVals ohW "c").length :=
  ⟨ohW_enc,
   (C6_one_hot_encoding ohW "c" 0 ohW1 (by rfl) (by decide) (by decide)
      ohW_enc).2.2.1,
   (C6_one_hot_encoding ohW "c" 0 ohW1 (by rfl) (by decide) (by decide)
      ohW_enc).2.2.2.1⟩

/-! ## Claim C7 — binning

`df_processed[column + "_binned"] = pd.cut(...)` APPENDS a new column
only when no column of that name exists; a pre-existing column named
`column + "_binned"` is REPLACED, so the operation does not always add
a column.  C7 is corrected with that proviso, and with `pd.cut`'s
error paths carved out: a string cell raises a TypeError and invalid
bins a ValueError.  The no-op on an absent column and the inclusive
lowest boundary hold as claimed. -/

deriving instance DecidableEq for Except

theorem probeLoop_cons_ok {lines : List String} {sep : Char} {rest : List Char}
    {df : CSVFrame} (h : readCSV sep lines = Except.ok df)
    (hgt : 1 < df.header.length) : probeLoop lines (sep :: rest) = some df := by
  simp [probeLoop, h, hgt]

theorem probeLoop_cons_skip {lines : List String} {sep : Char} {rest : List Char}
    (h : ∀ df, readCSV sep lines = Except.ok df → df.header.length ≤ 1) :
    probeLoop lines (sep :: rest) = probeLoop lines rest := by
  cases hc : readCSV sep lines with
  | error e => simp [probeLoop, hc]
  | ok df => simp [probeLoop, hc, Nat.not_lt.mpr (h df hc)]

/-- The spec's concrete file: two lines separated by ';'. -/
def exSemi : List String := ["a;b", "1;2"]

def exSemiFrame : CSVFrame :=
  { header := ["a", "b"], rows := [[some "1", some "2"]] }

def exSemiCommaFrame : CSVFrame :=
  { header := ["a;b"], rows := [[some "1;2"]] }

/-- C5: delimiter probing.  The candidates are tried in the priority
order comma, semicolon, tab, pipe, and the first parse with more than
one column wins: (1) a comma parse with >1 columns is taken outright;
(2)-(4) when every earlier candidate errors or yields a single column,
the semicolon / tab / pipe parse with >1 columns is taken; (5) when
every candidate errors or yields a single column, the frame is
re-parsed with the default comma separator regardless of its column
count, a parse error now being wrapped in the loader's message; and
(6) concretely, the ';'-separated file `exSemi` parses to one column
under ',' but loads with 2 (> 1) columns, equal to the cleaned direct
';' parse. -/
theorem C5_delimiter_probing :
    (∀ (lines : List String) (df : CSVFrame),
        readCSV ',' lines = Except.ok df → 1 < df.header.length →
        load_csv lines = Except.ok (dropBlank df)) ∧
    (∀ (lines : List String) (df : CSVFrame),
        (∀ d, readCSV ',' lines = Except.ok d → d.header.length ≤ 1) →
        readCSV ';' lines = Except.ok df → 1 < df.header.length →
        load_csv lines = Except.ok (dropBlank df)) ∧
    (∀ (lines : List String) (df : CSVFrame),
        (∀ d, readCSV ',' lines = Except.ok d → d.header.length ≤ 1) →
        (∀ d, readCSV ';' lines = Except.ok d → d.header.length ≤ 1) →
        readCSV '\t' lines = Except.ok df → 1 < df.header.length →
        load_csv lines = Except.ok (dropBlank df)) ∧
    (∀ (lines : List String) (df : CSVFrame),
        (∀ d, readCSV ',' lines = Except.ok d → d.header.length ≤ 1) →
        (∀ d, readCSV ';' lines = Except.ok d → d.header.length ≤ 1) →
        (∀ d, readCSV '\t' lines = Except.ok d → d.header.length ≤ 1) →
        readCSV '|' lines = Except.ok df → 1 < df.header.length →
        load_csv lines = Except.ok (dropBlank df)) ∧
    (∀ lines : List String,
        (∀ sep ∈ separators, ∀ d, readCSV sep lines = Except.ok d →
          d.header.length ≤ 1) →
        load_csv lines = (match readCSV ',' lines with
          | Except.ok df => Except.ok (dropBlank df)
          | Except.error e => Except.error ("CSV文件加载失败: " ++ e))) ∧
    (readCSV ',' exSemi = Except.ok exSemiCommaFrame ∧
      exSemiCommaFrame.header.length = 1 ∧
      readCSV ';' exSemi = Except.ok exSemiFrame ∧
      load_csv exSemi = Except.ok (dropBlank exSemiFrame) ∧
      load_csv exSemi = Except.ok exSemiFrame ∧
      1 < exSemiFrame.header.length) := by
  refine ⟨?_, ?_, ?_, ?_, ?_, ?_⟩
  · intro lines df h hgt
    simp [load_csv, separators, probeLoop_cons_ok h hgt]
  · intro lines df h1 h hgt
    simp [load_csv, separators, probeLoop_cons_skip h1, probeLoop_cons_ok h hgt]
  · intro lines df h1 h2 h hgt
    simp [load_csv, separators, probeLoop_cons_skip h1, probeLoop_cons_skip h2,
      probeLoop_cons_ok h hgt]
  · intro lines df h1 h2 h3 h hgt
    simp [load_csv, separators, probeLoop_cons_skip h1, probeLoop_cons_skip h2,
      probeLoop_cons_skip h3, probeLoop_cons_ok h hgt]
  · intro lines hall
    have hnone : probeLoop lines separators = none := by
      rw [separators,
        probeLoop_cons_skip (hall ',' (by decide)),
        probeLoop_cons_skip (hall ';' (by decide)),
        probeLoop_cons_skip (hall '\t' (by decide)),
        probeLoop_cons_skip (hall '|' (by decide))]
      rfl
    rw [load_csv, hnone]
  · exact ⟨by decide, by decide, by decide, by decide, by decide, by decide⟩

/-- Witness for C5: the semicolon clause applied to the concrete file
`exSemi`, whose comma parse has a single column. -/
theorem C5_delimiter_probing_witness :
    load_csv exSemi = Except.ok (dropBlank exSemiFrame) :=
  C5_delimiter_probing.2.1 exSemi exSemiFrame
    (fun d h => by
      have h2 : d = exSemiCommaFrame := by
        rw [show readCSV ',' exSemi = Except.ok exSemiCommaFrame from rfl] at h
        cases h
        rfl
      rw [h2]
      decide)
    (by decide) (by decide)

end PyBI
